import Mathlib

/-!
# godl: the `genv` stub generator and the checked-in version stubs

A shallow embedding of `internal/genv/main.go` (the generator of the
per-version `main.go` stubs) and of the eight checked-in stubs, together with
the cache-store state machine of the launcher engine that the stubs call.

Go strings are modelled as `List Char` (command-line arguments are taken to
be valid UTF-8); string constants of the source are written as literals
followed by `.toList`. The packages `strings`, `regexp` and `html/template` of
the Go standard library are modelled as far as `genv` uses them. A file that
`genv` writes is recorded with the contents of the buffer; what `gofmt -w`
does to it afterwards is not modelled.
-/

namespace Godl

/-! ## Go standard library: `strings` -/

/-- Go `strings.HasPrefix(s, prefix)`. -/
def hasPrefix (s pre : List Char) : Bool :=
  pre.isPrefixOf s

/-- Go `strings.Contains(s, substr)`: `substr` occurs at some offset of `s`. -/
def stringsContains : List Char → List Char → Bool
  | [], sub => sub.isPrefixOf []
  | c :: cs, sub => sub.isPrefixOf (c :: cs) || stringsContains cs sub

/-- Go `strings.Replace(s, old, new, 1)` for a non-empty `old`: the first
occurrence of `old` is replaced. -/
def replaceFirst (old new : List Char) : List Char → List Char
  | [] => []
  | c :: cs =>
    if old.isPrefixOf (c :: cs) then new ++ (c :: cs).drop old.length
    else c :: replaceFirst old new cs

/-! ## Go standard library: `regexp` (leftmost-first matching with submatches)

The fragment of the syntax that the pattern of `versionNoPatch` uses. Matching
is the backtracking search that defines Go's leftmost-first semantics:
alternatives are tried left to right, repetition is greedy. -/

/-- Regular expressions: the constructs occurring in the pattern. -/
inductive Re where
  /-- The assertion `^`: beginning of text. -/
  | bot : Re
  /-- The assertion `$`: end of text. -/
  | eot : Re
  /-- The empty expression. -/
  | empty : Re
  /-- One character of a class (a literal character is a one-element class). -/
  | cls : (Char → Bool) → Re
  /-- Concatenation. -/
  | seq : Re → Re → Re
  /-- Alternation, the left branch preferred. -/
  | alt : Re → Re → Re
  /-- Greedy repetition `c*` of a character class. -/
  | starCls : (Char → Bool) → Re
  /-- Capturing group number `i`. -/
  | group : Nat → Re → Re

/-- Captured submatches by group number; a group that took no part is `""`. -/
abbrev Caps := Nat → List Char

/-- Record `m` as the text of group `i`. -/
def setCap (c : Caps) (i : Nat) (m : List Char) : Caps :=
  fun j => if j = i then m else c j

/-- Continuations of the matcher: the text matched by the expression just
finished, whether the position is still the beginning of the text, the
remaining input, and the captures so far. -/
abbrev Cont (α : Type) := List Char → Bool → List Char → Caps → Option α

/-- Greedy `c*`: the longest run first, then shorter ones. -/
def starGreedy {α : Type} (p : Char → Bool) :
    Bool → List Char → Caps → Cont α → Option α
  | b, [], c, k => k [] b [] c
  | b, x :: xs, c, k =>
    if p x then
      (starGreedy p false xs c (fun m b1 s1 c1 => k (x :: m) b1 s1 c1)).orElse
        (fun _ => k [] b (x :: xs) c)
    else k [] b (x :: xs) c

/-- Backtracking matcher. `b` tells whether the current position is the
beginning of the text, `s` is the remaining input. -/
def matchRe {α : Type} : Re → Bool → List Char → Caps → Cont α → Option α
  | .bot, b, s, c, k => if b then k [] b s c else none
  | .eot, b, s, c, k => if s.isEmpty then k [] b s c else none
  | .empty, b, s, c, k => k [] b s c
  | .cls p, _, s, c, k =>
    match s with
    | [] => none
    | x :: xs => if p x then k [x] false xs c else none
  | .seq r1 r2, b, s, c, k =>
    matchRe r1 b s c (fun m1 b1 s1 c1 =>
      matchRe r2 b1 s1 c1 (fun m2 b2 s2 c2 => k (m1 ++ m2) b2 s2 c2))
  | .alt r1 r2, b, s, c, k =>
    (matchRe r1 b s c k).orElse (fun _ => matchRe r2 b s c k)
  | .starCls p, b, s, c, k => starGreedy p b s c k
  | .group i r, b, s, c, k =>
    matchRe r b s c (fun m b1 s1 c1 => k m b1 s1 (setCap c1 i m))

/-- A literal string. -/
def Re.lit : List Char → Re
  | [] => .empty
  | [x] => .cls (fun y => y == x)
  | x :: xs => .seq (.cls (fun y => y == x)) (Re.lit xs)

/-- The repetition `c+` of a class: `c` followed by `c*`. -/
def Re.plusCls (p : Char → Bool) : Re := .seq (.cls p) (.starCls p)

/-- The option `r?`, taking `r` when possible. -/
def Re.quest (r : Re) : Re := .alt r .empty

/-- The match of `r` starting exactly at the current position: the whole
match followed by the submatches of groups `1 .. n`. -/
def matchHere (r : Re) (n : Nat) (b : Bool) (s : List Char) : Option (List (List Char)) :=
  matchRe r b s (fun _ => []) (fun m _ _ c => some (m :: (List.range n).map (fun i => c (i + 1))))

/-- The leftmost match: start offsets are tried from left to right. -/
def searchFrom (r : Re) (n : Nat) : Bool → List Char → Option (List (List Char))
  | b, [] => matchHere r n b []
  | b, x :: xs => (matchHere r n b (x :: xs)).orElse (fun _ => searchFrom r n false xs)

/-- Go `(*Regexp).FindStringSubmatch` for an expression with `n` groups:
`none` is the nil slice. -/
def findStringSubmatch (r : Re) (n : Nat) (s : List Char) : Option (List (List Char)) :=
  searchFrom r n true s

/-- The class `\d` (ASCII digits). -/
def isDigit (c : Char) : Bool := c.isDigit

/-! ## `internal/genv/main.go` -/

/-- Ways in which `genv` terminates the process. -/
inductive Failure where
  /-- The function `usage`: no version argument. -/
  | usage : Failure
  /-- The call `failf("golangOrgDlRoot: %v", err)`. -/
  | dlRoot : Failure
  /-- The call `failf("version names should have the 'go' prefix")`. -/
  | noGoPrefix : Failure
  /-- The call `failf("unrecognized version %q", ver)`. -/
  | unrecognizedVersion : List Char → Failure
  /-- The call `failf("%v", err)` after `os.MkdirAll`. -/
  | mkdirAll : List Char → Failure
  /-- The call `failf("ioutil.WriteFile: %v", err)`. -/
  | writeFile : List Char → Failure
  /-- The call `failf("could not gofmt file %q: %v", path, err)`. -/
  | gofmt : List Char → Failure
  deriving DecidableEq

deriving instance DecidableEq for Except

/-- Exit status: `usage` ends in `os.Exit(2)`, `failf` in `os.Exit(1)`. -/
def Failure.status : Failure → Nat
  | .usage => 2
  | _ => 1

/-- The function `docHost`. -/
def docHost (ver : List Char) : List Char :=
  if stringsContains ver "rc".toList || stringsContains ver "beta".toList then
    "tip.golang.org".toList
  else "golang.org".toList

/-- The first group of the pattern, `go\d+\.\d+`. -/
def rxMajorMinor : Re :=
  .seq (Re.lit "go".toList)
    (.seq (Re.plusCls isDigit) (.seq (Re.lit ".".toList) (Re.plusCls isDigit)))

/-- The second group of the pattern, `$|[\.]?\d*`. -/
def rxPatch : Re :=
  .alt .eot (.seq (Re.quest (.cls (fun y => y == '.'))) (.starCls isDigit))

/-- The third group of the pattern, `$|rc|beta|\.`. -/
def rxQualifier : Re :=
  .alt .eot (.alt (Re.lit "rc".toList) (.alt (Re.lit "beta".toList) (Re.lit ".".toList)))

/-- The pattern `^(go\d+\.\d+)($|[\.]?\d*)($|rc|beta|\.)` of `versionNoPatch`. -/
def versionRx : Re :=
  .seq .bot (.seq (.group 1 rxMajorMinor) (.seq (.group 2 rxPatch) (.group 3 rxQualifier)))

/-- The function `versionNoPatch`; `failf` ends the process, which is the
`error` result. -/
def versionNoPatch (ver : List Char) : Except Failure (List Char) :=
  match findStringSubmatch versionRx 3 ver with
  | none => .error (.unrecognizedVersion ver)
  | some m =>
    if m.getD 2 [] ≠ [] then
      .ok ("devel/release.html#".toList ++ m.getD 1 [] ++ ".minor".toList)
    else .ok (m.getD 1 [])

/-! ## Declarative reading of the pattern -/

/-- Declarative reading of the expressions: `Den r b m s` says that `r` matches
the text `m` when `s` is the input that follows `m`; `b` tells whether `m`
starts at the beginning of the text. -/
def Den : Re → Bool → List Char → List Char → Prop
  | .bot, b, m, _ => b = true ∧ m = []
  | .eot, _, m, s => m = [] ∧ s = []
  | .empty, _, m, _ => m = []
  | .cls p, _, m, _ => ∃ x, p x = true ∧ m = [x]
  | .seq r1 r2, b, m, s =>
    ∃ m1 m2, m = m1 ++ m2 ∧ Den r1 b m1 (m2 ++ s) ∧ Den r2 (b && m1.isEmpty) m2 s
  | .alt r1 r2, b, m, s => Den r1 b m s ∨ Den r2 b m s
  | .starCls p, _, m, _ => ∀ x ∈ m, p x = true
  | .group _ r, b, m, s => Den r b m s

/-- What may follow `go<digits>.<digits>` in a string the pattern matches:
nothing, or a tail that begins with `.`, `rc` or `beta`. -/
def looseTail (r : List Char) : Bool :=
  r.isEmpty || ".".toList.isPrefixOf r || "rc".toList.isPrefixOf r || "beta".toList.isPrefixOf r

/-- The strings the pattern of `versionNoPatch` matches: `go`, digits, `.`,
digits, and then a `looseTail`. -/
def looseForm (v : List Char) : Bool :=
  let t := v.drop 2
  let t2 := (t.dropWhile isDigit).drop 1
  "go".toList.isPrefixOf v && !(t.takeWhile isDigit).isEmpty
    && (t.dropWhile isDigit).head? == some '.'
    && !(t2.takeWhile isDigit).isEmpty && looseTail (t2.dropWhile isDigit)

/-- The continuation succeeds or fails whatever the captures are. -/
def CapsFree {α : Type} (k : Cont α) : Prop :=
  ∀ m b s c c1, (k m b s c).isSome = (k m b s c1).isSome


/-! ## Go standard library: `html/template`

`mainTmpl` is parsed by `html/template`. Its text holds no `<`, so every action
stands in HTML text context and its value passes through the HTML escaper
before it is written. -/

/-- The table `htmlReplacementTable` of `html/template`: the replacement of a
character in a text node, `none` for a character written as it is. -/
def htmlReplacement (c : Char) : Option (List Char) :=
  if c.toNat = 0 then some [Char.ofNat 0xFFFD]
  else if c.toNat = 34 then some "&#34;".toList
  else if c.toNat = 38 then some "&amp;".toList
  else if c.toNat = 39 then some "&#39;".toList
  else if c.toNat = 43 then some "&#43;".toList
  else if c.toNat = 60 then some "&lt;".toList
  else if c.toNat = 62 then some "&gt;".toList
  else none

/-- The escaper `htmlEscaper` applied to a string value. -/
def htmlEscape (s : List Char) : List Char :=
  (s.map (fun c => (htmlReplacement c).getD [c])).flatten

/-- The anonymous struct that `main` passes to `mainTmpl.Execute`. -/
structure TmplData where
  /-- The field `Year`. -/
  Year : Nat
  /-- The field `Version`, such as `go1.5.3rc2`. -/
  Version : List Char
  /-- The field `VersionNoPatch`, such as `go1.5`. -/
  VersionNoPatch : List Char
  /-- The field `CapitalSpaceVersion`, such as `Go 1.5`. -/
  CapitalSpaceVersion : List Char
  /-- The field `DocHost`. -/
  DocHost : List Char

/-- A parsed template: literal text and field actions. -/
inductive Piece where
  /-- Literal text. -/
  | text : List Char → Piece
  /-- The action on `.Year`. -/
  | year : Piece
  /-- The action on `.Version`. -/
  | version : Piece
  /-- The action on `.VersionNoPatch`. -/
  | versionNoPatch : Piece
  /-- The action on `.CapitalSpaceVersion`. -/
  | capitalSpaceVersion : Piece
  /-- The action on `.DocHost`. -/
  | docHost : Piece

/-- What one piece writes: text as it is, a field value escaped. -/
def Piece.render (d : TmplData) : Piece → List Char
  | .text s => s
  | .year => htmlEscape (Nat.repr d.Year).toList
  | .version => htmlEscape d.Version
  | .versionNoPatch => htmlEscape d.VersionNoPatch
  | .capitalSpaceVersion => htmlEscape d.CapitalSpaceVersion
  | .docHost => htmlEscape d.DocHost

/-- The method `Execute` of a template: the pieces are written in order. -/
def execute (t : List Piece) (d : TmplData) : List Char :=
  (t.map (Piece.render d)).flatten

/-! ## `internal/genv/main.go`: the template and `main` -/

/-- The template `mainTmpl`. -/
def mainTmpl : List Piece :=
  [ .text "// Copyright ".toList,
    .year,
    .text " The Go Authors. All rights reserved.\n".toList,
    .text "// Use of this source code is governed by a BSD-style\n".toList,
    .text "// license that can be found in the LICENSE file.\n".toList,
    .text "\n".toList,
    .text "// The ".toList,
    .version,
    .text " command runs the go command from ".toList,
    .capitalSpaceVersion,
    .text ".\n".toList,
    .text "//\n".toList,
    .text "// To install, run:\n".toList,
    .text "//\n".toList,
    .text "//     $ go install github.com/zrhmn/godl/".toList,
    .version,
    .text "@latest\n".toList,
    .text "//     $ ".toList,
    .version,
    .text " download\n".toList,
    .text "//\n".toList,
    .text "// And then use the ".toList,
    .version,
    .text " command as if it were your normal go\n".toList,
    .text "// command.\n".toList,
    .text "//\n".toList,
    .text "// See the release notes at https://".toList,
    .docHost,
    .text "/doc/".toList,
    .versionNoPatch,
    .text "\n".toList,
    .text "//\n".toList,
    .text "// File bugs at https://golang.org/issues/new\n".toList,
    .text "package main\n".toList,
    .text "\n".toList,
    .text "import \"github.com/zrhmn/godl/internal/version\"\n".toList,
    .text "\n".toList,
    .text "func main() \x7b\n".toList,
    .text "\tversion.Run(\"".toList,
    .version,
    .text "\")\n".toList,
    .text "\x7d\n".toList ]

/-- The outcome of `cmd.Output()` when it is not nil: an error in which
`errors.As` finds an `*exec.ExitError` (with its process state and standard
error), or any other error. -/
inductive CmdError where
  /-- The command ran and exited unsuccessfully. -/
  | exit : List Char → List Char → CmdError
  /-- Any other error of `cmd.Output()`. -/
  | other : List Char → CmdError
  deriving DecidableEq

/-- The struct `mod` that the output of `go list -m -json` is decoded into. -/
structure ModInfo where
  /-- Module path. -/
  Path : List Char
  /-- Directory holding files for this module. -/
  Dir : List Char
  deriving DecidableEq

/-- The non-nil errors that `golangOrgDlRoot` returns. -/
inductive RootError where
  /-- The error `go command exited unsuccessfully: ...`. -/
  | exitedUnsuccessfully : List Char → List Char → RootError
  /-- The error of `cmd.Output()` returned as it is. -/
  | command : List Char → RootError
  /-- The error of `json.Unmarshal`. -/
  | decode : List Char → RootError
  /-- The error `working directory must be in module ...`. -/
  | wrongModule : List Char → RootError
  deriving DecidableEq

/-- The function `golangOrgDlRoot`. The environment is given by `out` and
`err`, the results of `cmd.Output()`, and by `unmarshal`, the behaviour of
`json.Unmarshal` on the output. The result is the pair of the returned string
and the returned error, `none` for nil. -/
def golangOrgDlRoot (out : List Char) (err : Option CmdError)
    (unmarshal : List Char → Except (List Char) ModInfo) : List Char × Option RootError :=
  match err with
  | some (.exit state stderr) => ([], some (.exitedUnsuccessfully state stderr))
  | some (.other e) => ([], some (.command e))
  | none =>
    match unmarshal out with
    | .error e => ([], some (.decode e))
    | .ok mod =>
      if mod.Path ≠ "github.com/zrhmn/godl".toList then ([], some (.wrongModule mod.Path))
      else (mod.Dir, none)

/-- The environment of `main` besides the module root: the current year, the
path `filepath.Join(dlRoot, version, "main.go")`, and whether `os.MkdirAll`,
`ioutil.WriteFile` and the `gofmt -w` command succeed on a path. -/
structure Env where
  /-- The value `time.Now().Year()`. -/
  year : Nat
  /-- The path `filepath.Join(dlRoot, version, "main.go")`. -/
  join : List Char → List Char → List Char
  /-- Whether `os.MkdirAll(filepath.Dir(path), 0755)` succeeds. -/
  mkdirAll : List Char → Bool
  /-- Whether `ioutil.WriteFile(path, buf.Bytes(), 0666)` succeeds. -/
  writeFile : List Char → Bool
  /-- Whether `gofmt -w path` succeeds. -/
  gofmt : List Char → Bool

/-- The first half of the loop body of `main`: the prefix check, the fields
of the template data (where `versionNoPatch` may end the process) and the
execution of the template into the buffer. The execution itself does not
fail: every field exists and the buffer accepts every write. -/
def stubSource (year : Nat) (version : List Char) : Except Failure (List Char) :=
  if !hasPrefix version "go".toList then .error .noGoPrefix
  else
    match versionNoPatch version with
    | .error f => .error f
    | .ok vnp =>
      .ok (execute mainTmpl
        { Year := year
          Version := version
          VersionNoPatch := vnp
          DocHost := docHost version
          CapitalSpaceVersion := replaceFirst "go".toList "Go ".toList version })

/-- The loop body of `main` for one argument: the file written, if any, with
its path and contents, and the failure that ends the process, if any. -/
def genvVersion (env : Env) (dlRoot version : List Char) :
    Option (List Char × List Char) × Option Failure :=
  match stubSource env.year version with
  | .error f => (none, some f)
  | .ok buf =>
    let path := env.join dlRoot version
    if !env.mkdirAll path then (none, some (.mkdirAll path))
    else if !env.writeFile path then (none, some (.writeFile path))
    else if !env.gofmt path then (some (path, buf), some (.gofmt path))
    else (some (path, buf), none)

/-- A run of `genv`: the files written, in order, and the failure that ended
the process, `none` when `main` returned. -/
structure Run where
  /-- Paths and contents of the files written. -/
  written : List (List Char × List Char)
  /-- The failure that ended the process. -/
  exit : Option Failure

/-- The loop of `main` over `os.Args[1:]`. -/
def genvLoop (env : Env) (dlRoot : List Char) : List (List Char) → Run
  | [] => ⟨[], none⟩
  | v :: vs =>
    match genvVersion env dlRoot v with
    | (w, some f) => ⟨w.toList, some f⟩
    | (w, none) => ⟨w.toList ++ (genvLoop env dlRoot vs).written, (genvLoop env dlRoot vs).exit⟩

/-- The function `main`; `args` is `os.Args[1:]` and `root` the result of
`golangOrgDlRoot`. -/
def genvMain (env : Env) (root : List Char × Option RootError) (args : List (List Char)) : Run :=
  if args.isEmpty then ⟨[], some .usage⟩
  else
    match root with
    | (_, some _) => ⟨[], some .dlRoot⟩
    | (dlRoot, none) => genvLoop env dlRoot args

/-! ## The checked-in stubs `<V>/main.go` -/

/-- A checked-in stub: its directory name and the lines of its `main.go`,
each ended by a newline in the file. -/
structure Stub where
  /-- The directory of the stub. -/
  dir : String
  /-- The lines of `main.go`. -/
  lines : List String

/-- The file `go1.8.4/main.go`. -/
def stub_go1_8_4 : Stub :=
  { dir := "go1.8.4"
    lines :=
      [ "// Copyright 2018 The Go Authors. All rights reserved.",
        "// Use of this source code is governed by a BSD-style",
        "// license that can be found in the LICENSE file.",
        "",
        "// The go1.8.4 command runs the go command from Go 1.8.4.",
        "//",
        "// To install, run:",
        "//",
        "//     $ go install github.com/zrhmn/godl/go1.8.4@latest",
        "//     $ go1.8.4 download",
        "//",
        "// And then use the go1.8.4 command as if it were your normal go",
        "// command.",
        "//",
        "// See the release notes at https://golang.org/doc/devel/release.html#go1.8.minor",
        "//",
        "// File bugs at https://golang.org/issues/new",
        "package main",
        "",
        "import \"github.com/zrhmn/godl/internal/version\"",
        "",
        "func main() \x7b",
        "\tversion.Run(\"go1.8.4\")",
        "\x7d",
        "" ] }

/-- The file `go1.9rc1/main.go`. -/
def stub_go1_9rc1 : Stub :=
  { dir := "go1.9rc1"
    lines :=
      [ "// Copyright 2018 The Go Authors. All rights reserved.",
        "// Use of this source code is governed by a BSD-style",
        "// license that can be found in the LICENSE file.",
        "",
        "// The go1.9rc1 command runs the go command from Go 1.9rc1.",
        "//",
        "// To install, run:",
        "//",
        "//     $ go install github.com/zrhmn/godl/go1.9rc1@latest",
        "//     $ go1.9rc1 download",
        "//",
        "// And then use the go1.9rc1 command as if it were your normal go",
        "// command.",
        "//",
        "// See the release notes at https://tip.golang.org/doc/go1.9",
        "//",
        "// File bugs at https://golang.org/issues/new",
        "package main",
        "",
        "import \"github.com/zrhmn/godl/internal/version\"",
        "",
        "func main() \x7b",
        "\tversion.Run(\"go1.9rc1\")",
        "\x7d",
        "" ] }

/-- The file `go1.14.14/main.go`. -/
def stub_go1_14_14 : Stub :=
  { dir := "go1.14.14"
    lines :=
      [ "// Copyright 2021 The Go Authors. All rights reserved.",
        "// Use of this source code is governed by a BSD-style",
        "// license that can be found in the LICENSE file.",
        "",
        "// The go1.14.14 command runs the go command from Go 1.14.14.",
        "//",
        "// To install, run:",
        "//",
        "//     $ go install github.com/zrhmn/godl/go1.14.14@latest",
        "//     $ go1.14.14 download",
        "//",
        "// And then use the go1.14.14 command as if it were your normal go",
        "// command.",
        "//",
        "// See the release notes at https://golang.org/doc/devel/release.html#go1.14.minor",
        "//",
        "// File bugs at https://golang.org/issues/new",
        "package main",
        "",
        "import \"github.com/zrhmn/godl/internal/version\"",
        "",
        "func main() \x7b",
        "\tversion.Run(\"go1.14.14\")",
        "\x7d",
        "" ] }

/-- The file `go1.15.5/main.go`. -/
def stub_go1_15_5 : Stub :=
  { dir := "go1.15.5"
    lines :=
      [ "// Copyright 2020 The Go Authors. All rights reserved.",
        "// Use of this source code is governed by a BSD-style",
        "// license that can be found in the LICENSE file.",
        "",
        "// The go1.15.5 command runs the go command from Go 1.15.5.",
        "//",
        "// To install, run:",
        "//",
        "//     $ go install github.com/zrhmn/godl/go1.15.5@latest",
        "//     $ go1.15.5 download",
        "//",
        "// And then use the go1.15.5 command as if it were your normal go",
        "// command.",
        "//",
        "// See the release notes at https://golang.org/doc/devel/release.html#go1.15.minor",
        "//",
        "// File bugs at https://golang.org/issues/new",
        "package main",
        "",
        "import \"github.com/zrhmn/godl/internal/version\"",
        "",
        "func main() \x7b",
        "\tversion.Run(\"go1.15.5\")",
        "\x7d",
        "" ] }

/-- The file `go1.17.5/main.go`. -/
def stub_go1_17_5 : Stub :=
  { dir := "go1.17.5"
    lines :=
      [ "// Copyright 2021 The Go Authors. All rights reserved.",
        "// Use of this source code is governed by a BSD-style",
        "// license that can be found in the LICENSE file.",
        "",
        "// The go1.17.5 command runs the go command from Go 1.17.5.",
        "//",
        "// To install, run:",
        "//",
        "//     $ go install github.com/zrhmn/godl/go1.17.5@latest",
        "//     $ go1.17.5 download",
        "//",
        "// And then use the go1.17.5 command as if it were your normal go",
        "// command.",
        "//",
        "// See the release notes at https://go.dev/doc/devel/release#go1.17.minor.",
        "//",
        "// File bugs at https://go.dev/issue/new.",
        "package main",
        "",
        "import \"github.com/zrhmn/godl/internal/version\"",
        "",
        "func main() \x7b",
        "\tversion.Run(\"go1.17.5\")",
        "\x7d",
        "" ] }

/-- The file `go1.17rc2/main.go`. -/
def stub_go1_17rc2 : Stub :=
  { dir := "go1.17rc2"
    lines :=
      [ "// Copyright 2021 The Go Authors. All rights reserved.",
        "// Use of this source code is governed by a BSD-style",
        "// license that can be found in the LICENSE file.",
        "",
        "// The go1.17rc2 command runs the go command from Go 1.17rc2.",
        "//",
        "// To install, run:",
        "//",
        "//     $ go install github.com/zrhmn/godl/go1.17rc2@latest",
        "//     $ go1.17rc2 download",
        "//",
        "// And then use the go1.17rc2 command as if it were your normal go",
        "// command.",
        "//",
        "// See the release notes at https://tip.golang.org/doc/go1.17",
        "//",
        "// File bugs at https://golang.org/issues/new",
        "package main",
        "",
        "import \"github.com/zrhmn/godl/internal/version\"",
        "",
        "func main() \x7b",
        "\tversion.Run(\"go1.17rc2\")",
        "\x7d",
        "" ] }

/-- The file `go1.18beta1/main.go`. -/
def stub_go1_18beta1 : Stub :=
  { dir := "go1.18beta1"
    lines :=
      [ "// Copyright 2021 The Go Authors. All rights reserved.",
        "// Use of this source code is governed by a BSD-style",
        "// license that can be found in the LICENSE file.",
        "",
        "// The go1.18beta1 command runs the go command from Go 1.18beta1.",
        "//",
        "// To install, run:",
        "//",
        "//     $ go install github.com/zrhmn/godl/go1.18beta1@latest",
        "//     $ go1.18beta1 download",
        "//",
        "// And then use the go1.18beta1 command as if it were your normal go",
        "// command.",
        "//",
        "// See the release notes at https://tip.golang.org/doc/go1.18.",
        "//",
        "// File bugs at https://go.dev/issue/new.",
        "package main",
        "",
        "import \"github.com/zrhmn/godl/internal/version\"",
        "",
        "func main() \x7b",
        "\tversion.Run(\"go1.18beta1\")",
        "\x7d",
        "" ] }

/-- The file `go1.19.5/main.go`. -/
def stub_go1_19_5 : Stub :=
  { dir := "go1.19.5"
    lines :=
      [ "// Copyright 2023 The Go Authors. All rights reserved.",
        "// Use of this source code is governed by a BSD-style",
        "// license that can be found in the LICENSE file.",
        "",
        "// The go1.19.5 command runs the go command from Go 1.19.5.",
        "//",
        "// To install, run:",
        "//",
        "//\t$ go install golang.org/dl/go1.19.5@latest",
        "//\t$ go1.19.5 download",
        "//",
        "// And then use the go1.19.5 command as if it were your normal go",
        "// command.",
        "//",
        "// See the release notes at https://go.dev/doc/devel/release#go1.19.minor.",
        "//",
        "// File bugs at https://go.dev/issue/new.",
        "package main",
        "",
        "import \"golang.org/dl/internal/version\"",
        "",
        "func main() \x7b",
        "\tversion.Run(\"go1.19.5\")",
        "\x7d",
        "" ] }

/-- The eight checked-in stubs. -/
def stubs : List Stub :=
  [ stub_go1_8_4,
    stub_go1_9rc1,
    stub_go1_14_14,
    stub_go1_15_5,
    stub_go1_17_5,
    stub_go1_17rc2,
    stub_go1_18beta1,
    stub_go1_19_5 ]

/-- The release-notes line of the package doc comment of a stub. -/
def releaseNotesLine (st : Stub) : Option (List Char) :=
  (st.lines.map String.toList).find? (fun l => "// See the release notes at ".toList.isPrefixOf l)

/-- The import paths among the lines of a Go file: what stands between the
quotes of its `import "..."` lines. -/
def importPathsOf (lines : List (List Char)) : List (List Char) :=
  (lines.filter (fun l => "import \"".toList.isPrefixOf l)).map (fun l => (l.drop 8).dropLast)

/-- The import paths of a stub. -/
def importPaths (st : Stub) : List (List Char) :=
  importPathsOf (st.lines.map String.toList)

/-- The lines of a function body: those after the opening line up to the
closing brace. -/
def bodyAfter (openLine : List Char) : List (List Char) → List (List Char)
  | [] => []
  | l :: ls => if l = openLine then ls.takeWhile (fun x => x ≠ "\x7d".toList) else bodyAfter openLine ls

/-- The body of `main` in a stub. -/
def mainBody (st : Stub) : List (List Char) :=
  bodyAfter "func main() \x7b".toList (st.lines.map String.toList)

/-- The import path of the shared engine, as `mainTmpl` emits it. -/
def enginePath : List Char := "github.com/zrhmn/godl/internal/version".toList

/-- The release-notes line for a version as a string formula:
`"// See the release notes at https://" + docHost(V) + "/doc/" + versionNoPatch(V)`. -/
def notesLine (version : List Char) : Except Failure (List Char) :=
  match versionNoPatch version with
  | .error f => .error f
  | .ok vnp =>
    .ok ("// See the release notes at https://".toList ++ docHost version ++ "/doc/".toList ++ vnp)

/-! ## The naming grammar of version identifiers

The grammar as the specification words it: `go`, digits, `.`, digits,
optionally `.` and digits (the patch), optionally `rc` and digits or `beta`
and digits. These definitions follow those words, not the pattern of
`versionNoPatch`. -/

/-- A non-empty string of ASCII digits. -/
def isDigits (s : List Char) : Bool :=
  !s.isEmpty && s.all isDigit

/-- The optional qualifier: nothing, `rc<digits>` or `beta<digits>`. -/
def isQualifier (q : List Char) : Bool :=
  q.isEmpty || ("rc".toList.isPrefixOf q && isDigits (q.drop 2))
    || ("beta".toList.isPrefixOf q && isDigits (q.drop 4))

/-- The strings of the naming grammar of the specification. -/
def isVersionID (v : List Char) : Bool :=
  let t := v.drop 2
  let r1 := t.dropWhile isDigit
  let t2 := r1.drop 1
  let r2 := t2.dropWhile isDigit
  "go".toList.isPrefixOf v && !(t.takeWhile isDigit).isEmpty && r1.head? == some '.'
    && !(t2.takeWhile isDigit).isEmpty
    && (isQualifier r2
      || (r2.head? == some '.' && !((r2.drop 1).takeWhile isDigit).isEmpty
        && isQualifier ((r2.drop 1).dropWhile isDigit)))

/-- An environment in which every file operation succeeds and paths are
joined with `/`. -/
def Env.allOk (year : Nat) : Env :=
  { year := year
    join := fun dlRoot version => dlRoot ++ "/".toList ++ version ++ "/main.go".toList
    mkdirAll := fun _ => true
    writeFile := fun _ => true
    gofmt := fun _ => true }

/-- The lines of a text: the pieces between newlines. -/
def linesOf : List Char → List (List Char)
  | [] => [[]]
  | c :: cs =>
    if c = '\n' then [] :: linesOf cs
    else
      match linesOf cs with
      | [] => [[c]]
      | l :: ls => (c :: l) :: ls

/-! ## The cache store of the launcher engine

The stubs call `version.Run` of `internal/version`, the engine that the
specification calls the Launcher Core. Its cache store is modelled as a state
machine over versions; the digest algorithm and the expected digests are
parameters. -/

namespace Core

/-- Modelled from the spec: the status of a `CacheEntry` (section 3). The
engine `internal/version`, which holds the cache store, is not among the
sources. -/
inductive Status where
  /-- No directory for the version. -/
  | Absent : Status
  /-- For the duration of an atomic install operation. -/
  | Installing : Status
  /-- The directory exists and holds the completion sentinel. -/
  | Ready : Status
  /-- The directory exists without the completion sentinel. -/
  | Corrupt : Status
  deriving DecidableEq

/-- Modelled from the spec: the failures of the Core (section 7); the error
values of `internal/version` are not among the sources. -/
inductive CoreError where
  /-- Malformed identifier or unsupported platform. -/
  | InvalidVersion : CoreError
  /-- The download failed after the bounded retries. -/
  | NetworkError : CoreError
  /-- The digest of the artifact differs from the expected digest. -/
  | ChecksumMismatch : CoreError
  /-- Unknown archive kind. -/
  | UnsupportedFormat : CoreError
  /-- Disk full, permission denied. -/
  | IOError : CoreError
  /-- The install path exists already and is not Ready. -/
  | AlreadyExists : CoreError
  deriving DecidableEq

/-- Modelled from the spec: a directory tree on disk, scratch or installed
(sections 3 and 6); the on-disk layout of `internal/version` is not among the
sources. It records the archive bytes it was extracted from and whether it holds the
completion sentinel. -/
structure Tree where
  /-- The bytes of the archive the tree was extracted from. -/
  source : List Nat
  /-- Whether the completion sentinel is present. -/
  sentinel : Bool
  deriving DecidableEq

/-- Modelled from the spec: the cache root, one optional directory per
`VersionID` (section 6); the layout code of `internal/version` is missing. -/
abbrev Store := String → Option Tree

/-- The empty cache root. -/
def Store.empty : Store := fun _ => none

/-- The store with the directory of `v` replaced. -/
def Store.set (st : Store) (v : String) (t : Option Tree) : Store :=
  fun u => if u = v then t else st u

/-- Modelled from the spec: what the Core takes from its platform, in place
of the missing Version Descriptor and Checksum Verifier code: the digest
algorithm of the Checksum Verifier and the expected digest that
`Describe` derives for a version (`none`: `InvalidVersion`). -/
structure Platform where
  /-- The digest of a file. -/
  digest : List Nat → List Nat
  /-- The expected digest of the archive of a version. -/
  expected : String → Option (List Nat)

/-- Modelled from the spec: `Lookup` of the Cache Store (section 4.5), whose
code is missing. A version is Ready only if
its directory exists and contains the completion sentinel; a directory without
the sentinel is Corrupt. -/
def Lookup (st : Store) (v : String) : Status :=
  match st v with
  | none => .Absent
  | some t => if t.sentinel then .Ready else .Corrupt

/-- Modelled from the spec: `Verify` of the Checksum Verifier (section 4.3),
whose code is missing: the comparison of the
digest of the file with the expected digest. -/
def Verify (P : Platform) (file expectedDigest : List Nat) : Bool :=
  P.digest file == expectedDigest

/-- Modelled from the spec: `Commit` of the Cache Store (section 4.5), whose
code is missing. The scratch directory,
extracted from the archive `scratch`, is renamed to the install path and the
sentinel is then written; `sentinelOk` tells whether that write succeeds. When
the install path exists already the scratch directory is discarded. -/
def Commit (st : Store) (v : String) (scratch : List Nat) (sentinelOk : Bool) :
    Store × Except CoreError Unit :=
  match st v with
  | some t => (st, if t.sentinel then .ok () else .error .AlreadyExists)
  | none =>
    (st.set v (some ⟨scratch, sentinelOk⟩), if sentinelOk then .ok () else .error .IOError)

/-- Modelled from the spec: `Purge` of the Cache Store (section 4.5), whose
code is missing. It removes the directory of a
Corrupt entry, returning the version to Absent. -/
def Purge (st : Store) (v : String) : Store :=
  if Lookup st v = .Corrupt then st.set v none else st

/-- Modelled from the spec: `Acquire` of the Acquisition Orchestrator
(section 4.6), whose code is missing: nothing when the version
is Ready, else describe, fetch, verify, extract, commit, each step abandoning
the attempt on failure. `fetched` is the artifact the Downloader delivers
(`none`: `NetworkError`), `extractOk` and `sentinelOk` tell whether extraction
and the write of the sentinel succeed. -/
def Acquire (P : Platform) (st : Store) (v : String) (fetched : Option (List Nat))
    (extractOk sentinelOk : Bool) : Store × Except CoreError Unit :=
  if Lookup st v = .Ready then (st, .ok ())
  else
    match P.expected v with
    | none => (st, .error .InvalidVersion)
    | some d =>
      match fetched with
      | none => (st, .error .NetworkError)
      | some artifact =>
        if !Verify P artifact d then (st, .error .ChecksumMismatch)
        else if !extractOk then (st, .error .IOError)
        else Commit st v artifact sentinelOk

/-- Modelled from the spec: the operations on the cache store (sections 4.5
and 4.6), whose code is missing, with the outcomes of their environment. -/
inductive Op where
  /-- The operation `Acquire` and what download, extraction and sentinel write do. -/
  | acquire : String → Option (List Nat) → Bool → Bool → Op
  /-- The operation `Commit` of a scratch directory extracted from an archive. -/
  | commit : String → List Nat → Bool → Op
  /-- The operation `Purge`. -/
  | purge : String → Op

/-- Modelled from the spec: the contract of an operation (section 4.5), in
place of the missing callers of `Commit`. `Commit` promotes a
fully-verified scratch directory: the archive it was extracted from has the
expected digest of the version. -/
def Op.contract (P : Platform) : Op → Prop
  | .commit v scratch _ => ∃ d, P.expected v = some d ∧ Verify P scratch d = true
  | _ => True

/-- The store after one operation. -/
def step (P : Platform) (st : Store) : Op → Store
  | .acquire v fetched extractOk sentinelOk => (Acquire P st v fetched extractOk sentinelOk).1
  | .commit v scratch sentinelOk => (Commit st v scratch sentinelOk).1
  | .purge v => Purge st v

/-- The store after a sequence of operations on the empty cache. -/
def run (P : Platform) (ops : List Op) : Store :=
  ops.foldl (step P) Store.empty

/-- The contents installed for `v` are digest-verified: the archive they were
extracted from has the expected digest of `v`. -/
def DigestVerified (P : Platform) (st : Store) (v : String) : Prop :=
  ∃ t d, st v = some t ∧ P.expected v = some d ∧ P.digest t.source = d

/-- A platform for examples: the digest of a file is its length and its sum,
the archive of `go1.19.5` is expected to have digest `[3, 6]`. -/
def Platform.sample : Platform :=
  { digest := fun bytes => [bytes.length, bytes.sum]
    expected := fun v => if v = "go1.19.5" then some [3, 6] else none }

/-- A sample run: a download with a wrong digest, a good download, a second
commit of the same version, and a purge. -/
def sampleOps : List Op :=
  [ .acquire "go1.19.5" (some [1, 2, 4]) true true,
    .acquire "go1.19.5" (some [1, 2, 3]) true true,
    .commit "go1.19.5" [3, 2, 1] true,
    .purge "go1.19.5" ]

/-- Every directory of the store was extracted from a verified archive. -/
def AllVerified (P : Platform) (st : Store) : Prop :=
  ∀ v t, st v = some t → ∃ d, P.expected v = some d ∧ P.digest t.source = d

end Core

/-! ## Theorems: the matcher -/

theorem starGreedy_run {α : Type} (p : Char → Bool) (X rest : List Char) (b : Bool) (c : Caps)
    (k : Cont α) (r : α) (hX : ∀ x ∈ X, p x = true) (hrest : ∀ y ∈ rest.head?, p y = false)
    (hk : k X (b && X.isEmpty) rest c = some r) : starGreedy p b (X ++ rest) c k = some r := by
  induction X generalizing b k with
  | nil =>
    cases rest with
    | nil => simpa [starGreedy] using hk
    | cons y ys =>
      have hy : p y = false := hrest y (by simp)
      simpa [starGreedy, hy] using hk
  | cons x X ih =>
    have hx : p x = true := hX x (by simp)
    have h1 := ih false (fun m b1 s1 c1 => k (x :: m) b1 s1 c1) (fun z hz => hX z (by simp [hz]))
      (by simpa using hk)
    simp [starGreedy, hx, h1]

theorem matchRe_seq {α : Type} (r1 r2 : Re) (b : Bool) (s : List Char) (c : Caps) (k : Cont α) :
    matchRe (.seq r1 r2) b s c k = matchRe r1 b s c (fun m1 b1 s1 c1 =>
      matchRe r2 b1 s1 c1 (fun m2 b2 s2 c2 => k (m1 ++ m2) b2 s2 c2)) := rfl

theorem matchRe_group {α : Type} (i : Nat) (r : Re) (b : Bool) (s : List Char) (c : Caps)
    (k : Cont α) :
    matchRe (.group i r) b s c k = matchRe r b s c (fun m b1 s1 c1 => k m b1 s1 (setCap c1 i m)) :=
  rfl

theorem matchRe_bot {α : Type} (b : Bool) (s : List Char) (c : Caps) (k : Cont α) :
    matchRe .bot b s c k = if b then k [] b s c else none := rfl

theorem rxMajorMinor_run {α : Type} (X Y rest : List Char) (b : Bool) (c : Caps) (k : Cont α) (r : α)
    (hX : X ≠ [] ∧ ∀ x ∈ X, isDigit x = true) (hY : Y ≠ [] ∧ ∀ x ∈ Y, isDigit x = true)
    (hrest : ∀ y ∈ rest.head?, isDigit y = false)
    (hk : k ('g' :: 'o' :: (X ++ '.' :: Y)) false rest c = some r) :
    matchRe rxMajorMinor b ('g' :: 'o' :: (X ++ '.' :: (Y ++ rest))) c k = some r := by
  obtain ⟨x, X, rfl⟩ := List.exists_cons_of_ne_nil hX.1
  obtain ⟨y, Y, rfl⟩ := List.exists_cons_of_ne_nil hY.1
  have hx : isDigit x = true := hX.2 x (by simp)
  have hy : isDigit y = true := hY.2 y (by simp)
  simp only [rxMajorMinor, String.toList, matchRe, Re.lit, Re.plusCls, List.cons_append, beq_self_eq_true, if_true, hx]
  apply starGreedy_run _ X ('.' :: y :: (Y ++ rest))
  · exact fun z hz => hX.2 z (by simp [hz])
  · simp [isDigit]
  · simp only [beq_self_eq_true, if_true, hy]
    apply starGreedy_run _ Y rest
    · exact fun z hz => hY.2 z (by simp [hz])
    · exact hrest
    · simpa using hk

/-- What `findStringSubmatch` yields once a match at offset 0 is known. -/
theorem findStringSubmatch_of_matchHere (r : Re) (n : Nat) (s : List Char) (m : List (List Char))
    (h : matchHere r n true s = some m) : findStringSubmatch r n s = some m := by
  cases s with
  | nil => simpa [findStringSubmatch, searchFrom] using h
  | cons x xs => simp [findStringSubmatch, searchFrom, h]

theorem find_noPatch (X Y q N : List Char)
    (hX : X ≠ [] ∧ ∀ x ∈ X, isDigit x = true) (hY : Y ≠ [] ∧ ∀ x ∈ Y, isDigit x = true)
    (hq : q = [] ∨ q = 'r' :: 'c' :: N ∨ q = 'b' :: 'e' :: 't' :: 'a' :: N) :
    ∃ m0 m3, findStringSubmatch versionRx 3 ('g' :: 'o' :: (X ++ '.' :: (Y ++ q)))
      = some [m0, 'g' :: 'o' :: (X ++ '.' :: Y), [], m3] := by
  refine ⟨'g' :: 'o' :: (X ++ '.' :: Y) ++ q.take (if q.head? = some 'b' then 4 else 2), q.take (if q.head? = some 'b' then 4 else 2), ?_⟩
  apply findStringSubmatch_of_matchHere
  simp only [matchHere, versionRx, matchRe_seq, matchRe_group, matchRe_bot, if_true]
  apply rxMajorMinor_run X Y q _ _ _ _ hX hY
  · rcases hq with rfl | rfl | rfl <;> simp [isDigit]
  · rcases hq with rfl | rfl | rfl
    · simp [rxPatch, rxQualifier, matchRe, setCap, List.range, List.range.loop]
    · simp [rxPatch, rxQualifier, matchRe, setCap, List.range, List.range.loop, Re.quest, Re.lit, starGreedy, isDigit]
    · simp [rxPatch, rxQualifier, matchRe, setCap, List.range, List.range.loop, Re.quest, Re.lit, starGreedy, isDigit]

theorem rxPatch_dot_run {α : Type} (Z rest : List Char) (b : Bool) (c : Caps) (k : Cont α) (r : α)
    (hZ : ∀ x ∈ Z, isDigit x = true) (hrest : ∀ y ∈ rest.head?, isDigit y = false)
    (hk : k ('.' :: Z) false rest c = some r) :
    matchRe rxPatch b ('.' :: (Z ++ rest)) c k = some r := by
  have h := starGreedy_run isDigit Z rest false c (fun m b1 s1 c1 => k ('.' :: m) b1 s1 c1) r
    hZ hrest (by simpa using hk)
  simp [rxPatch, Re.quest, matchRe, h]

theorem find_patch (X Y Z q N : List Char)
    (hX : X ≠ [] ∧ ∀ x ∈ X, isDigit x = true) (hY : Y ≠ [] ∧ ∀ x ∈ Y, isDigit x = true)
    (hZ : ∀ x ∈ Z, isDigit x = true)
    (hq : q = [] ∨ q = 'r' :: 'c' :: N ∨ q = 'b' :: 'e' :: 't' :: 'a' :: N) :
    ∃ m0 m3, findStringSubmatch versionRx 3 ('g' :: 'o' :: (X ++ '.' :: (Y ++ '.' :: (Z ++ q))))
      = some [m0, 'g' :: 'o' :: (X ++ '.' :: Y), '.' :: Z, m3] := by
  refine ⟨'g' :: 'o' :: (X ++ '.' :: Y) ++ '.' :: Z ++ q.take (if q.head? = some 'b' then 4 else 2),
    q.take (if q.head? = some 'b' then 4 else 2), ?_⟩
  apply findStringSubmatch_of_matchHere
  simp only [matchHere, versionRx, matchRe_seq, matchRe_group, matchRe_bot, if_true]
  apply rxMajorMinor_run X Y ('.' :: (Z ++ q)) _ _ _ _ hX hY
  · simp [isDigit]
  · apply rxPatch_dot_run Z q _ _ _ _ hZ
    · rcases hq with rfl | rfl | rfl <;> simp [isDigit]
    · rcases hq with rfl | rfl | rfl
      · simp [rxQualifier, matchRe, setCap, List.range, List.range.loop]
      · simp [rxQualifier, matchRe, setCap, List.range, List.range.loop, Re.lit]
      · simp [rxQualifier, matchRe, setCap, List.range, List.range.loop, Re.lit]

theorem orElse_isSome {α : Type} (a b : Option α) :
    (a.orElse fun _ => b).isSome = true ↔ a.isSome = true ∨ b.isSome = true := by
  cases a <;> simp

theorem starGreedy_isSome {α : Type} (p : Char → Bool) (s : List Char) (b : Bool) (c : Caps)
    (k : Cont α) :
    (starGreedy p b s c k).isSome = true ↔
      ∃ m s1, s = m ++ s1 ∧ (∀ x ∈ m, p x = true) ∧ (k m (b && m.isEmpty) s1 c).isSome = true := by
  induction s generalizing b k with
  | nil =>
    simp only [starGreedy]
    constructor
    · intro h; exact ⟨[], [], rfl, by simp, by simpa using h⟩
    · rintro ⟨m, s1, h1, -, h3⟩
      obtain ⟨rfl, rfl⟩ : m = [] ∧ s1 = [] := by simpa using h1.symm
      simpa using h3
  | cons x xs ih =>
    simp only [starGreedy]
    by_cases hx : p x = true
    · simp only [hx, if_true, orElse_isSome, ih]
      constructor
      · rintro (⟨m, s1, h1, h2, h3⟩ | h)
        · refine ⟨x :: m, s1, by simp [h1], ?_, by simpa using h3⟩
          intro z hz
          rcases List.mem_cons.1 hz with rfl | hz
          · exact hx
          · exact h2 z hz
        · exact ⟨[], x :: xs, rfl, by simp, by simpa using h⟩
      · rintro ⟨m, s1, h1, h2, h3⟩
        cases m with
        | nil =>
          right
          obtain rfl : s1 = x :: xs := by simpa using h1.symm
          simpa using h3
        | cons y m =>
          left
          obtain ⟨rfl, rfl⟩ : x = y ∧ xs = m ++ s1 := by simpa using h1
          exact ⟨m, s1, rfl, fun z hz => h2 z (by simp [hz]), by simpa using h3⟩
    · simp only [hx, if_false]
      constructor
      · intro h; exact ⟨[], x :: xs, rfl, by simp, by simpa using h⟩
      · rintro ⟨m, s1, h1, h2, h3⟩
        cases m with
        | nil =>
          obtain rfl : s1 = x :: xs := by simpa using h1.symm
          simpa using h3
        | cons y m =>
          obtain ⟨rfl, rfl⟩ : x = y ∧ xs = m ++ s1 := by simpa using h1
          exact absurd (h2 x (by simp)) hx

theorem matchRe_isSome {α : Type} (r : Re) : ∀ (b : Bool) (s : List Char) (c : Caps) (k : Cont α),
    CapsFree k →
    ((matchRe r b s c k).isSome = true ↔
      ∃ m s1, s = m ++ s1 ∧ Den r b m s1 ∧ (k m (b && m.isEmpty) s1 c).isSome = true) := by
  induction r with
  | bot =>
    intro b s c k _
    simp only [matchRe, Den]
    constructor
    · intro h
      cases b with
      | false => simp at h
      | true => exact ⟨[], s, rfl, ⟨rfl, rfl⟩, by simpa using h⟩
    · rintro ⟨m, s1, h1, ⟨rfl, rfl⟩, h3⟩
      obtain rfl : s = s1 := by simpa using h1
      simpa using h3
  | eot =>
    intro b s c k _
    simp only [matchRe, Den]
    constructor
    · intro h
      cases s with
      | nil => exact ⟨[], [], rfl, ⟨rfl, rfl⟩, by simpa using h⟩
      | cons x xs => simp at h
    · rintro ⟨m, s1, h1, ⟨rfl, rfl⟩, h3⟩
      obtain rfl : s = [] := by simpa using h1
      simpa using h3
  | empty =>
    intro b s c k _
    simp only [matchRe, Den]
    constructor
    · intro h; exact ⟨[], s, rfl, rfl, by simpa using h⟩
    · rintro ⟨m, s1, h1, rfl, h3⟩
      obtain rfl : s = s1 := by simpa using h1
      simpa using h3
  | cls p =>
    intro b s c k _
    simp only [matchRe, Den]
    cases s with
    | nil =>
      simp only [Option.isSome_none, Bool.false_eq_true, false_iff]
      rintro ⟨m, s1, h1, ⟨x, -, rfl⟩, -⟩
      simp at h1
    | cons y ys =>
      by_cases hy : p y = true
      · simp only [hy, if_true]
        constructor
        · intro h; exact ⟨[y], ys, rfl, ⟨y, hy, rfl⟩, by simpa using h⟩
        · rintro ⟨m, s1, h1, ⟨x, -, rfl⟩, h3⟩
          obtain ⟨rfl, rfl⟩ : y = x ∧ ys = s1 := by simpa using h1
          simpa using h3
      · simp only [hy, if_false, Option.isSome_none, Bool.false_eq_true, false_iff]
        rintro ⟨m, s1, h1, ⟨x, hx, rfl⟩, -⟩
        obtain ⟨rfl, rfl⟩ : y = x ∧ ys = s1 := by simpa using h1
        exact hy hx
  | seq r1 r2 ih1 ih2 =>
    intro b s c k hk
    have hk2 : ∀ m1 : List Char, CapsFree (fun m2 b2 s2 c2 => k (m1 ++ m2) b2 s2 c2) :=
      fun m1 m b s c c1 => hk (m1 ++ m) b s c c1
    have hk1 : CapsFree (fun m1 b1 s1 c1 =>
        matchRe r2 b1 s1 c1 (fun m2 b2 s2 c2 => k (m1 ++ m2) b2 s2 c2)) := by
      intro m b s c c1
      rw [Bool.eq_iff_iff, ih2 _ _ _ _ (hk2 m), ih2 _ _ _ _ (hk2 m)]
      constructor
      · rintro ⟨m2, s2, h1, h2, h3⟩
        exact ⟨m2, s2, h1, h2, by rw [← hk _ _ _ c c1]; exact h3⟩
      · rintro ⟨m2, s2, h1, h2, h3⟩
        exact ⟨m2, s2, h1, h2, by rw [hk _ _ _ c c1]; exact h3⟩
    simp only [matchRe, Den]
    rw [ih1 _ _ _ _ hk1]
    constructor
    · rintro ⟨m1, s1, h1, h2, h3⟩
      rw [ih2 _ _ _ _ (hk2 m1)] at h3
      obtain ⟨m2, s2, h4, h5, h6⟩ := h3
      subst h4
      have he : (m1 ++ m2).isEmpty = (m1.isEmpty && m2.isEmpty) := by cases m1 <;> simp
      refine ⟨m1 ++ m2, s2, by simp [h1], ⟨m1, m2, rfl, h2, h5⟩, ?_⟩
      simpa [he, Bool.and_assoc] using h6
    · rintro ⟨m, s2, h1, ⟨m1, m2, rfl, h2, h5⟩, h6⟩
      have he : (m1 ++ m2).isEmpty = (m1.isEmpty && m2.isEmpty) := by cases m1 <;> simp
      refine ⟨m1, m2 ++ s2, by simp [h1], h2, ?_⟩
      rw [ih2 _ _ _ _ (hk2 m1)]
      exact ⟨m2, s2, rfl, h5, by simpa [he, Bool.and_assoc] using h6⟩
  | alt r1 r2 ih1 ih2 =>
    intro b s c k hk
    simp only [matchRe, Den, orElse_isSome, ih1 _ _ _ _ hk, ih2 _ _ _ _ hk]
    constructor
    · rintro (⟨m, s1, h1, h2, h3⟩ | ⟨m, s1, h1, h2, h3⟩)
      · exact ⟨m, s1, h1, Or.inl h2, h3⟩
      · exact ⟨m, s1, h1, Or.inr h2, h3⟩
    · rintro ⟨m, s1, h1, h2 | h2, h3⟩
      · exact Or.inl ⟨m, s1, h1, h2, h3⟩
      · exact Or.inr ⟨m, s1, h1, h2, h3⟩
  | starCls p =>
    intro b s c k _
    simp only [matchRe, Den]
    exact starGreedy_isSome p s b c k
  | group i r ih =>
    intro b s c k hk
    have hk1 : CapsFree (fun m b1 s1 c1 => k m b1 s1 (setCap c1 i m)) :=
      fun m b s c c1 => hk m b s _ _
    simp only [matchRe, Den]
    rw [ih _ _ _ _ hk1]
    constructor
    · rintro ⟨m, s1, h1, h2, h3⟩
      exact ⟨m, s1, h1, h2, by rw [hk _ _ _ c (setCap c i m)]; exact h3⟩
    · rintro ⟨m, s1, h1, h2, h3⟩
      exact ⟨m, s1, h1, h2, by rw [← hk _ _ _ c (setCap c i m)]; exact h3⟩

theorem matchHere_isSome (r : Re) (n : Nat) (b : Bool) (s : List Char) :
    (matchHere r n b s).isSome = true ↔ ∃ m s1, s = m ++ s1 ∧ Den r b m s1 := by
  have h := matchRe_isSome r b s (fun _ => [])
    (fun m _ _ c => some (m :: (List.range n).map (fun i => c (i + 1)))) (fun _ _ _ _ _ => rfl)
  simpa [matchHere] using h

theorem searchFrom_bot_false (r : Re) (n : Nat) (s : List Char) :
    searchFrom (.seq .bot r) n false s = none := by
  induction s with
  | nil => simp [searchFrom, matchHere, matchRe]
  | cons x xs ih => simp [searchFrom, matchHere, matchRe, ih]

theorem findStringSubmatch_bot (r : Re) (n : Nat) (s : List Char) :
    findStringSubmatch (.seq .bot r) n s = matchHere (.seq .bot r) n true s := by
  cases s with
  | nil => simp [findStringSubmatch, searchFrom]
  | cons x xs => simp [findStringSubmatch, searchFrom, searchFrom_bot_false]


theorem takeWhile_run (p : Char → Bool) (X W : List Char) (hX : ∀ x ∈ X, p x = true) :
    (X ++ W).takeWhile p = X ++ W.takeWhile p ∧ (X ++ W).dropWhile p = W.dropWhile p := by
  induction X with
  | nil => simp
  | cons x X ih =>
    have hx : p x = true := hX x (by simp)
    have h := ih (fun z hz => hX z (by simp [hz]))
    simp [List.takeWhile, List.dropWhile, hx, h.1, h.2]

theorem den_rxMajorMinor (b : Bool) (m s : List Char) :
    Den rxMajorMinor b m s ↔ ∃ X Y, X ≠ [] ∧ (∀ x ∈ X, isDigit x = true) ∧ Y ≠ [] ∧
      (∀ x ∈ Y, isDigit x = true) ∧ m = 'g' :: 'o' :: (X ++ '.' :: Y) := by
  simp only [rxMajorMinor, Re.lit, Re.plusCls, Den, String.toList]
  constructor
  · rintro ⟨_, _, rfl, ⟨_, _, rfl, ⟨g, hg, rfl⟩, ⟨o, ho, rfl⟩⟩, _, _, rfl,
      ⟨_, X, rfl, ⟨x, hx, rfl⟩, hX⟩, _, _, rfl, ⟨d, hd, rfl⟩, _, Y, rfl, ⟨y, hy, rfl⟩, hY⟩
    obtain rfl : g = 'g' := by simpa using hg
    obtain rfl : o = 'o' := by simpa using ho
    obtain rfl : d = '.' := by simpa using hd
    refine ⟨x :: X, y :: Y, by simp, ?_, by simp, ?_, by simp⟩
    · intro z hz
      rcases List.mem_cons.1 hz with rfl | hz
      · exact hx
      · exact hX z hz
    · intro z hz
      rcases List.mem_cons.1 hz with rfl | hz
      · exact hy
      · exact hY z hz
  · rintro ⟨X, Y, hX0, hX, hY0, hY, rfl⟩
    obtain ⟨x, X, rfl⟩ := List.exists_cons_of_ne_nil hX0
    obtain ⟨y, Y, rfl⟩ := List.exists_cons_of_ne_nil hY0
    exact ⟨['g', 'o'], x :: X ++ '.' :: y :: Y, by simp,
      ⟨['g'], ['o'], rfl, ⟨'g', by simp, rfl⟩, ⟨'o', by simp, rfl⟩⟩,
      x :: X, '.' :: y :: Y, by simp,
      ⟨[x], X, rfl, ⟨x, hX x (by simp), rfl⟩, fun z hz => hX z (by simp [hz])⟩,
      ['.'], y :: Y, rfl, ⟨'.', by simp, rfl⟩,
      [y], Y, rfl, ⟨y, hY y (by simp), rfl⟩, fun z hz => hY z (by simp [hz])⟩

theorem den_rxPatch (b : Bool) (m s : List Char) :
    Den rxPatch b m s ↔ (m = [] ∧ s = []) ∨
      ∃ D, (∀ x ∈ D, isDigit x = true) ∧ (m = '.' :: D ∨ m = D) := by
  simp only [rxPatch, Re.quest, Den]
  constructor
  · rintro (h | ⟨_, D, rfl, (⟨d, hd, rfl⟩ | rfl), hD⟩)
    · exact Or.inl h
    · obtain rfl : d = '.' := by simpa using hd
      exact Or.inr ⟨D, hD, Or.inl rfl⟩
    · exact Or.inr ⟨D, hD, Or.inr rfl⟩
  · rintro (h | ⟨D, hD, (rfl | rfl)⟩)
    · exact Or.inl h
    · exact Or.inr ⟨['.'], D, rfl, Or.inl ⟨'.', by simp, rfl⟩, hD⟩
    · exact Or.inr ⟨[], m, rfl, Or.inr rfl, hD⟩

theorem den_rxQualifier (b : Bool) (m s : List Char) :
    Den rxQualifier b m s ↔ (m = [] ∧ s = []) ∨ m = ['r', 'c'] ∨ m = ['b', 'e', 't', 'a'] ∨
      m = ['.'] := by
  simp only [rxQualifier, Re.lit, Den, String.toList]
  constructor
  · rintro (h | ⟨_, _, rfl, ⟨r, hr, rfl⟩, ⟨c, hc, rfl⟩⟩ |
      ⟨_, _, rfl, ⟨x1, h1, rfl⟩, _, _, rfl, ⟨x2, h2, rfl⟩, _, _, rfl, ⟨x3, h3, rfl⟩, ⟨x4, h4, rfl⟩⟩ |
      ⟨d, hd, rfl⟩)
    · exact Or.inl h
    · obtain rfl : r = 'r' := by simpa using hr
      obtain rfl : c = 'c' := by simpa using hc
      exact Or.inr (Or.inl rfl)
    · obtain rfl : x1 = 'b' := by simpa using h1
      obtain rfl : x2 = 'e' := by simpa using h2
      obtain rfl : x3 = 't' := by simpa using h3
      obtain rfl : x4 = 'a' := by simpa using h4
      exact Or.inr (Or.inr (Or.inl rfl))
    · obtain rfl : d = '.' := by simpa using hd
      exact Or.inr (Or.inr (Or.inr rfl))
  · rintro (h | rfl | rfl | rfl)
    · exact Or.inl h
    · exact Or.inr (Or.inl ⟨['r'], ['c'], rfl, ⟨'r', by simp, rfl⟩, ⟨'c', by simp, rfl⟩⟩)
    · exact Or.inr (Or.inr (Or.inl ⟨['b'], ['e', 't', 'a'], rfl, ⟨'b', by simp, rfl⟩,
        ['e'], ['t', 'a'], rfl, ⟨'e', by simp, rfl⟩, ['t'], ['a'], rfl, ⟨'t', by simp, rfl⟩,
        ⟨'a', by simp, rfl⟩⟩))
    · exact Or.inr (Or.inr (Or.inr ⟨'.', by simp, rfl⟩))

theorem den_versionRx (m s : List Char) :
    Den versionRx true m s ↔ ∃ m1 m2 m3, m = m1 ++ (m2 ++ m3) ∧ Den rxMajorMinor true m1 (m2 ++ m3 ++ s) ∧
      Den rxPatch (m1.isEmpty) m2 (m3 ++ s) ∧ Den rxQualifier (m1.isEmpty && m2.isEmpty) m3 s := by
  have e : ∀ (r1 r2 : Re) b m s, Den (.seq r1 r2) b m s ↔
      ∃ m1 m2, m = m1 ++ m2 ∧ Den r1 b m1 (m2 ++ s) ∧ Den r2 (b && m1.isEmpty) m2 s :=
    fun _ _ _ _ _ => Iff.rfl
  have g : ∀ i r b m s, Den (.group i r) b m s ↔ Den r b m s := fun _ _ _ _ _ => Iff.rfl
  have z : ∀ b m s, Den .bot b m s ↔ (b = true ∧ m = []) := fun _ _ _ => Iff.rfl
  rw [versionRx]
  simp only [e, g, z]
  constructor
  · rintro ⟨_, _, rfl, ⟨-, rfl⟩, m1, _, rfl, h1, m2, m3, rfl, h2, h3⟩
    exact ⟨m1, m2, m3, by simp, by simpa using h1, by simpa using h2, by simpa using h3⟩
  · rintro ⟨m1, m2, m3, rfl, h1, h2, h3⟩
    exact ⟨[], m1 ++ (m2 ++ m3), rfl, ⟨trivial, rfl⟩, m1, m2 ++ m3, rfl, by simpa using h1,
      m2, m3, rfl, by simpa using h2, by simpa using h3⟩

theorem looseForm_of_den (v m s : List Char) (hv : v = m ++ s) (h : Den versionRx true m s) :
    looseForm v = true := by
  obtain ⟨m1, m2, m3, rfl, h1, h2, h3⟩ := (den_versionRx m s).1 h
  obtain ⟨X, Y, hX0, hX, hY0, hY, rfl⟩ := (den_rxMajorMinor _ _ _).1 h1
  obtain ⟨y, Y, rfl⟩ := List.exists_cons_of_ne_nil hY0
  subst hv
  have hXr := takeWhile_run isDigit X ('.' :: (y :: Y ++ (m2 ++ m3 ++ s))) hX
  have hYr := takeWhile_run isDigit (y :: Y) (m2 ++ m3 ++ s) hY
  have hdot : isDigit '.' = false := by decide
  have hgo : looseForm ('g' :: 'o' :: (X ++ '.' :: (y :: Y ++ (m2 ++ m3 ++ s)))) =
      looseTail ((m2 ++ m3 ++ s).dropWhile isDigit) := by
    simp only [looseForm, String.toList, List.drop, hXr.1, hXr.2, hYr.1, hYr.2, List.takeWhile,
      List.dropWhile, hdot]
    cases X with
    | nil => exact absurd rfl hX0
    | cons x X => simp [List.isPrefixOf]
  have hnorm : 'g' :: 'o' :: (X ++ '.' :: y :: Y) ++ (m2 ++ m3) ++ s =
      'g' :: 'o' :: (X ++ '.' :: (y :: Y ++ (m2 ++ m3 ++ s))) := by simp
  rw [hnorm, hgo]
  have hr : isDigit 'r' = false := by decide
  have hb : isDigit 'b' = false := by decide
  rcases (den_rxPatch _ _ _).1 h2 with ⟨rfl, h4⟩ | ⟨D, hD, rfl | rfl⟩
  · obtain ⟨rfl, rfl⟩ : m3 = [] ∧ s = [] := by simpa using h4
    simp [looseTail]
  · simp [looseTail, List.dropWhile, hdot, List.isPrefixOf]
  · have hDr := takeWhile_run isDigit m2 (m3 ++ s) hD
    rw [List.append_assoc, hDr.2]
    rcases (den_rxQualifier _ _ _).1 h3 with ⟨rfl, rfl⟩ | rfl | rfl | rfl
    · simp [looseTail]
    · simp [looseTail, List.dropWhile, hr, List.isPrefixOf]
    · simp [looseTail, List.dropWhile, hb, List.isPrefixOf]
    · simp [looseTail, List.dropWhile, hdot, List.isPrefixOf]

theorem den_of_looseForm (v : List Char) (h : looseForm v = true) :
    ∃ m s, v = m ++ s ∧ Den versionRx true m s := by
  simp only [looseForm, Bool.and_eq_true, List.isPrefixOf_iff_prefix, Bool.not_eq_true',
    beq_iff_eq] at h
  obtain ⟨⟨⟨⟨⟨t, rfl⟩, hX⟩, hd⟩, hY⟩, hR⟩ := h
  have e2 : List.drop 2 ("go".toList ++ t) = t := rfl
  rw [e2] at hX hd hY hR
  have ht : t = t.takeWhile isDigit ++ t.dropWhile isDigit :=
    (List.takeWhile_append_dropWhile isDigit t).symm
  generalize hXd : t.takeWhile isDigit = X at hX ht
  have hXdig : ∀ x ∈ X, isDigit x = true := fun x hx => by
    rw [← hXd] at hx; exact List.mem_takeWhile_imp hx
  generalize t.dropWhile isDigit = t1 at hd hY hR ht
  cases t1 with
  | nil => simp at hd
  | cons d t2 =>
    obtain rfl : d = '.' := by simpa using hd
    simp only [List.drop] at hY hR
    have ht2 : t2 = t2.takeWhile isDigit ++ t2.dropWhile isDigit :=
      (List.takeWhile_append_dropWhile isDigit t2).symm
    generalize hYd : t2.takeWhile isDigit = Y at hY ht2
    have hYdig : ∀ x ∈ Y, isDigit x = true := fun x hx => by
      rw [← hYd] at hx; exact List.mem_takeWhile_imp hx
    generalize t2.dropWhile isDigit = R at hR ht2
    have hmm : ∀ s, Den rxMajorMinor true ('g' :: 'o' :: (X ++ '.' :: Y)) s := fun s =>
      (den_rxMajorMinor _ _ _).2 ⟨X, Y, by simpa using hX, hXdig, by simpa using hY, hYdig, rfl⟩
    have hp : ∀ s, Den rxPatch false [] s := fun s =>
      (den_rxPatch _ _ _).2 (Or.inr ⟨[], by simp, Or.inr rfl⟩)
    have key : ∀ m3 s, R = m3 ++ s → Den rxQualifier false m3 s →
        ∃ m s, "go".toList ++ t = m ++ s ∧ Den versionRx true m s := by
      intro m3 s hRs h3
      refine ⟨'g' :: 'o' :: (X ++ '.' :: Y) ++ ([] ++ m3), s, ?_, ?_⟩
      · rw [ht, ht2, hRs]; simp [String.toList]
      · exact (den_versionRx _ _).2 ⟨_, [], m3, rfl, hmm _, by simpa using hp _, by simpa using h3⟩
    simp only [looseTail, Bool.or_eq_true, List.isPrefixOf_iff_prefix, List.isEmpty_iff] at hR
    rcases hR with ((rfl | ⟨s, rfl⟩) | ⟨s, rfl⟩) | ⟨s, rfl⟩
    · exact key [] [] rfl ((den_rxQualifier _ _ _).2 (Or.inl ⟨rfl, rfl⟩))
    · exact key ['.'] s rfl ((den_rxQualifier _ _ _).2 (Or.inr (Or.inr (Or.inr rfl))))
    · exact key ['r', 'c'] s rfl ((den_rxQualifier _ _ _).2 (Or.inr (Or.inl rfl)))
    · exact key ['b', 'e', 't', 'a'] s rfl ((den_rxQualifier _ _ _).2 (Or.inr (Or.inr (Or.inl rfl))))

/-- The pattern of `versionNoPatch` matches exactly the strings of `looseForm`. -/
theorem versionNoPatch_ok_iff (v : List Char) :
    (∃ r, versionNoPatch v = .ok r) ↔ looseForm v = true := by
  have hfind : (findStringSubmatch versionRx 3 v).isSome = true ↔ looseForm v = true := by
    rw [versionRx, findStringSubmatch_bot, ← versionRx, matchHere_isSome]
    exact ⟨fun ⟨m, s, h1, h2⟩ => looseForm_of_den v m s h1 h2, den_of_looseForm v⟩
  rw [← hfind]
  unfold versionNoPatch
  cases findStringSubmatch versionRx 3 v with
  | none => simp
  | some m =>
    dsimp only
    split_ifs <;> simp

theorem versionNoPatch_error_iff (v : List Char) :
    versionNoPatch v = .error (.unrecognizedVersion v) ↔ looseForm v = false := by
  rw [← Bool.not_eq_true, ← versionNoPatch_ok_iff]
  unfold versionNoPatch
  cases findStringSubmatch versionRx 3 v with
  | none => simp
  | some m =>
    dsimp only
    split_ifs <;> simp

/-! ## Theorems: the arguments `genv` accepts -/

theorem versionNoPatch_cases (v : List Char) :
    versionNoPatch v = .error (.unrecognizedVersion v) ∨ ∃ r, versionNoPatch v = .ok r := by
  unfold versionNoPatch
  cases findStringSubmatch versionRx 3 v with
  | none => exact Or.inl rfl
  | some m =>
    dsimp only
    split_ifs
    · exact Or.inr ⟨_, rfl⟩
    · exact Or.inr ⟨_, rfl⟩

theorem looseForm_hasPrefix (v : List Char) (h : looseForm v = true) :
    hasPrefix v "go".toList = true := by
  simp only [looseForm, Bool.and_eq_true] at h
  exact h.1.1.1.1

theorem stubSource_ok_of_looseForm (year : Nat) (v : List Char) (h : looseForm v = true) :
    ∃ buf, stubSource year v = .ok buf := by
  obtain ⟨r, hr⟩ := (versionNoPatch_ok_iff v).2 h
  exact ⟨_, by simp only [stubSource, looseForm_hasPrefix v h, hr, Bool.not_true]; rfl⟩

theorem stubSource_error_of_not_looseForm (year : Nat) (v : List Char) (h : looseForm v = false) :
    stubSource year v = .error .noGoPrefix ∨
      stubSource year v = .error (.unrecognizedVersion v) := by
  by_cases hp : hasPrefix v "go".toList = true
  · right
    have he := (versionNoPatch_error_iff v).2 h
    simp only [stubSource, hp, he, Bool.not_true]
    rfl
  · left
    simp only [stubSource]
    rw [if_pos (by simpa using hp)]

theorem looseForm_of_stubSource_ok (year : Nat) (v buf : List Char)
    (h : stubSource year v = .ok buf) : looseForm v = true := by
  cases hl : looseForm v with
  | true => rfl
  | false =>
    rcases stubSource_error_of_not_looseForm year v hl with h1 | h1 <;> rw [h1] at h <;> cases h

theorem stubSource_error_status (year : Nat) (v : List Char) (f : Failure)
    (h : stubSource year v = .error f) : f.status = 1 := by
  cases hl : looseForm v with
  | true =>
    obtain ⟨buf, hb⟩ := stubSource_ok_of_looseForm year v hl
    rw [hb] at h; cases h
  | false =>
    rcases stubSource_error_of_not_looseForm year v hl with h1 | h1 <;> rw [h1] at h <;>
      injection h with h <;> subst h <;> rfl

theorem genvVersion_status (env : Env) (dlRoot v : List Char) (w : Option (List Char × List Char))
    (f : Failure) (h : genvVersion env dlRoot v = (w, some f)) : f.status = 1 := by
  unfold genvVersion at h
  cases hs : stubSource env.year v with
  | error e =>
    rw [hs] at h
    obtain ⟨-, rfl⟩ : none = w ∧ e = f := by simpa using h
    exact stubSource_error_status _ _ _ hs
  | ok buf =>
    rw [hs] at h
    dsimp only at h
    split_ifs at h <;> simp only [Prod.mk.injEq, Option.some.injEq] at h <;>
      first
        | (obtain ⟨-, rfl⟩ := h; rfl)
        | exact absurd h.2 (by simp)

theorem genvVersion_written (env : Env) (dlRoot v : List Char) (w : List Char × List Char)
    (h : (genvVersion env dlRoot v).1 = some w) :
    looseForm v = true ∧ w.1 = env.join dlRoot v := by
  unfold genvVersion at h
  cases hs : stubSource env.year v with
  | error e => rw [hs] at h; simp at h
  | ok buf =>
    rw [hs] at h
    dsimp only at h
    refine ⟨looseForm_of_stubSource_ok _ _ _ hs, ?_⟩
    split_ifs at h <;> simp at h <;> rw [← h]

theorem genvLoop_written (env : Env) (dlRoot : List Char) (args : List (List Char)) :
    ∀ w ∈ (genvLoop env dlRoot args).written,
      ∃ u ∈ args, looseForm u = true ∧ w.1 = env.join dlRoot u := by
  induction args with
  | nil => simp [genvLoop]
  | cons v vs ih =>
    intro w hw
    unfold genvLoop at hw
    rcases hg : genvVersion env dlRoot v with ⟨o, e⟩
    rw [hg] at hw
    have hhead : ∀ w ∈ o.toList, ∃ u ∈ v :: vs, looseForm u = true ∧ w.1 = env.join dlRoot u := by
      intro w hw
      have : o = some w := by simpa using hw
      have h1 := genvVersion_written env dlRoot v w (by rw [hg]; exact this)
      exact ⟨v, by simp, h1⟩
    cases e with
    | some f => exact hhead w hw
    | none =>
      rcases List.mem_append.1 hw with h | h
      · exact hhead w h
      · obtain ⟨u, hu, h2⟩ := ih w h
        exact ⟨u, by simp [hu], h2⟩

theorem genvLoop_exit (env : Env) (dlRoot : List Char) (args : List (List Char)) (v : List Char)
    (hv : v ∈ args) (h : looseForm v = false) :
    ∃ f, (genvLoop env dlRoot args).exit = some f ∧ f.status = 1 := by
  induction args with
  | nil => simp at hv
  | cons u us ih =>
    unfold genvLoop
    rcases hg : genvVersion env dlRoot u with ⟨o, e⟩
    cases e with
    | some f => exact ⟨f, rfl, genvVersion_status env dlRoot u o f hg⟩
    | none =>
      rcases List.mem_cons.1 hv with rfl | hv
      · exfalso
        unfold genvVersion at hg
        rcases stubSource_error_of_not_looseForm env.year v h with h1 | h1 <;> rw [h1] at hg <;>
          simp at hg
      · exact ih hv


/-! ## Theorems: the rendered stub -/

theorem htmlEscape_id (s : List Char) (h : ∀ c ∈ s, htmlReplacement c = none) :
    htmlEscape s = s := by
  induction s with
  | nil => rfl
  | cons c cs ih =>
    have hc : htmlReplacement c = none := h c (by simp)
    have h2 := ih (fun x hx => h x (by simp [hx]))
    simp only [htmlEscape] at h2 ⊢
    simp [hc, h2]

theorem execute_append (a b : List Piece) (d : TmplData) :
    execute (a ++ b) d = execute a d ++ execute b d := by
  simp [execute]

theorem execute_cons (p : Piece) (t : List Piece) (d : TmplData) :
    execute (p :: t) d = p.render d ++ execute t d := by
  simp [execute]

theorem execute_mainTmpl_call (d : TmplData) :
    ∃ pre post, execute mainTmpl d =
      pre ++ "version.Run(\"".toList ++ htmlEscape d.Version ++ "\")".toList ++ post := by
  have hsplit : mainTmpl = mainTmpl.take 38 ++
      [.text "\tversion.Run(\"".toList, .version, .text "\")\n".toList, .text "\x7d\n".toList] :=
    rfl
  have h1 : "\tversion.Run(\"".toList = "\t".toList ++ "version.Run(\"".toList := rfl
  have h2 : "\")\n".toList = "\")".toList ++ "\n".toList := rfl
  refine ⟨execute (mainTmpl.take 38) d ++ "\t".toList, "\n".toList ++ "\x7d\n".toList, ?_⟩
  conv_lhs => rw [hsplit]
  rw [execute_append, execute_cons, execute_cons, execute_cons, execute_cons]
  simp only [Piece.render, h1, h2, execute, List.map_nil, List.flatten_nil, List.append_nil,
    List.append_assoc]

theorem execute_mainTmpl_notes (d : TmplData) :
    ∃ pre post, execute mainTmpl d =
      pre ++ "\n".toList ++ ("// See the release notes at https://".toList ++ htmlEscape d.DocHost
        ++ "/doc/".toList ++ htmlEscape d.VersionNoPatch) ++ "\n".toList ++ post := by
  have hsplit : mainTmpl = mainTmpl.take 25 ++
      (.text "//\n".toList :: .text "// See the release notes at https://".toList :: .docHost ::
        .text "/doc/".toList :: .versionNoPatch :: .text "\n".toList :: mainTmpl.drop 31) := rfl
  have h1 : "//\n".toList = "//".toList ++ "\n".toList := rfl
  refine ⟨execute (mainTmpl.take 25) d ++ "//".toList, execute (mainTmpl.drop 31) d, ?_⟩
  conv_lhs => rw [hsplit]
  rw [execute_append, execute_cons, execute_cons, execute_cons, execute_cons, execute_cons,
    execute_cons]
  simp only [Piece.render, h1, List.append_assoc]

theorem stubSource_ok_inv (year : Nat) (V buf : List Char) (h : stubSource year V = .ok buf) :
    ∃ vnp, versionNoPatch V = .ok vnp ∧ buf = execute mainTmpl
      { Year := year
        Version := V
        VersionNoPatch := vnp
        DocHost := docHost V
        CapitalSpaceVersion := replaceFirst "go".toList "Go ".toList V } := by
  unfold stubSource at h
  split_ifs at h
  cases hv : versionNoPatch V with
  | error f => rw [hv] at h; cases h
  | ok vnp =>
    rw [hv] at h
    injection h with h
    exact ⟨vnp, rfl, h.symm⟩


/-! ## Theorems: `docHost` -/

theorem stringsContains_iff (s sub : List Char) :
    stringsContains s sub = true ↔ ∃ pre post, s = pre ++ sub ++ post := by
  induction s with
  | nil =>
    simp only [stringsContains, List.isPrefixOf_iff_prefix]
    constructor
    · rintro ⟨t, h⟩
      exact ⟨[], t, by simpa using h.symm⟩
    · rintro ⟨pre, post, h⟩
      obtain ⟨rfl, rfl, rfl⟩ : pre = [] ∧ sub = [] ∧ post = [] := by simpa using h.symm
      exact ⟨[], rfl⟩
  | cons c cs ih =>
    simp only [stringsContains, Bool.or_eq_true, List.isPrefixOf_iff_prefix, ih]
    constructor
    · rintro (⟨t, h⟩ | ⟨pre, post, h⟩)
      · exact ⟨[], t, by simpa using h.symm⟩
      · exact ⟨c :: pre, post, by simp [h]⟩
    · rintro ⟨pre, post, h⟩
      cases pre with
      | nil => exact Or.inl ⟨post, by simpa using h.symm⟩
      | cons d pre =>
        obtain ⟨-, rfl⟩ : c = d ∧ cs = pre ++ (sub ++ post) := by simpa using h
        exact Or.inr ⟨pre, post, by simp⟩

theorem not_contains_of_not_mem (s sub : List Char) (x : Char) (hx : x ∈ sub) (hs : x ∉ s) :
    stringsContains s sub = false := by
  rw [← Bool.not_eq_true, stringsContains_iff]
  rintro ⟨pre, post, rfl⟩
  exact hs (by simp [hx])

theorem contains_append_right (pre sub post : List Char) :
    stringsContains (pre ++ sub ++ post) sub = true :=
  (stringsContains_iff _ _).2 ⟨pre, post, rfl⟩

/-- C6. For every string, `docHost` is `tip.golang.org` when the string has
`rc` or `beta` as a substring and `golang.org` otherwise, so these are its
only values; the versions `go<X>.<Y>rc<N>` and `go<X>.<Y>beta<N>` map to
`tip.golang.org`, the releases `go<X>.<Y>` and `go<X>.<Y>.<Z>` to
`golang.org`. -/
theorem docHost_spec (ver : List Char) :
    (((∃ pre post, ver = pre ++ "rc".toList ++ post) ∨
        (∃ pre post, ver = pre ++ "beta".toList ++ post)) →
        docHost ver = "tip.golang.org".toList) ∧
      (¬ ((∃ pre post, ver = pre ++ "rc".toList ++ post) ∨
        (∃ pre post, ver = pre ++ "beta".toList ++ post)) →
        docHost ver = "golang.org".toList) ∧
      (docHost ver = "tip.golang.org".toList ∨ docHost ver = "golang.org".toList) ∧
      (∀ X Y Z N : List Char, (X ≠ [] ∧ ∀ x ∈ X, isDigit x = true) →
        (Y ≠ [] ∧ ∀ x ∈ Y, isDigit x = true) → (Z ≠ [] ∧ ∀ x ∈ Z, isDigit x = true) →
        (N ≠ [] ∧ ∀ x ∈ N, isDigit x = true) →
        docHost ("go".toList ++ X ++ ".".toList ++ Y ++ "rc".toList ++ N) = "tip.golang.org".toList ∧
        docHost ("go".toList ++ X ++ ".".toList ++ Y ++ "beta".toList ++ N)
          = "tip.golang.org".toList ∧
        docHost ("go".toList ++ X ++ ".".toList ++ Y) = "golang.org".toList ∧
        docHost ("go".toList ++ X ++ ".".toList ++ Y ++ ".".toList ++ Z) = "golang.org".toList) := by
  have hcases : ∀ v : List Char, docHost v = if stringsContains v "rc".toList = true ∨
      stringsContains v "beta".toList = true then "tip.golang.org".toList
      else "golang.org".toList := by
    intro v
    simp only [docHost, Bool.or_eq_true]
  refine ⟨?_, ?_, ?_, ?_⟩
  · intro h
    rw [← stringsContains_iff, ← stringsContains_iff] at h
    rw [hcases, if_pos h]
  · intro h
    rw [← stringsContains_iff, ← stringsContains_iff] at h
    rw [hcases, if_neg h]
  · rw [hcases]
    split_ifs
    · exact Or.inl rfl
    · exact Or.inr rfl
  · intro X Y Z N hX hY hZ _
    have hr : isDigit 'r' = false := by decide
    have hb : isDigit 'b' = false := by decide
    have hnr : ∀ D : List Char, (∀ x ∈ D, isDigit x = true) → 'r' ∉ D :=
      fun D hD h => by simpa [hr] using hD _ h
    have hnb : ∀ D : List Char, (∀ x ∈ D, isDigit x = true) → 'b' ∉ D :=
      fun D hD h => by simpa [hb] using hD _ h
    refine ⟨?_, ?_, ?_, ?_⟩
    · rw [hcases, if_pos (Or.inl (contains_append_right _ _ _))]
    · rw [hcases, if_pos (Or.inr (contains_append_right _ _ _))]
    · rw [hcases, if_neg]
      rintro (h | h)
      · rw [not_contains_of_not_mem _ _ 'r' (by decide)
          (by simp [String.toList, hnr X hX.2, hnr Y hY.2])] at h
        exact Bool.false_ne_true h
      · rw [not_contains_of_not_mem _ _ 'b' (by decide)
          (by simp [String.toList, hnb X hX.2, hnb Y hY.2])] at h
        exact Bool.false_ne_true h
    · rw [hcases, if_neg]
      rintro (h | h)
      · rw [not_contains_of_not_mem _ _ 'r' (by decide)
          (by simp [String.toList, hnr X hX.2, hnr Y hY.2, hnr Z hZ.2])] at h
        exact Bool.false_ne_true h
      · rw [not_contains_of_not_mem _ _ 'b' (by decide)
          (by simp [String.toList, hnb X hX.2, hnb Y hY.2, hnb Z hZ.2])] at h
        exact Bool.false_ne_true h

/-- C6 at `go1.17rc2`, `go1.18beta1`, `go1.8` and `go1.8.4`. -/
theorem docHost_spec_witness :
    docHost "go1.17rc2".toList = "tip.golang.org".toList ∧
      docHost "go1.18beta1".toList = "tip.golang.org".toList ∧
      docHost "go1.8".toList = "golang.org".toList ∧
      docHost "go1.8.4".toList = "golang.org".toList ∧
      docHost "main".toList = "golang.org".toList :=
  have h17 := (docHost_spec "go1.17rc2".toList).1
    (Or.inl ⟨"go1.17".toList, "2".toList, rfl⟩)
  have h18 := ((docHost_spec []).2.2.2 "1".toList "18".toList "4".toList "1".toList
    (by decide) (by decide) (by decide) (by decide)).2.1
  have h8 := ((docHost_spec []).2.2.2 "1".toList "8".toList "4".toList "1".toList
    (by decide) (by decide) (by decide) (by decide)).2.2
  have hsrc := (docHost_spec "main".toList).2.1 (by
    rw [← stringsContains_iff, ← stringsContains_iff]
    decide)
  ⟨h17, h18, h8.1, h8.2, hsrc⟩

/-! ## Theorems: `versionNoPatch` -/

/-- C7. For non-empty digit strings `X`, `Y`, `Z` and a qualifier `q` that is
empty, `rc` followed by `N` or `beta` followed by `N`, `versionNoPatch` returns
`go<X>.<Y>` on `go<X>.<Y><q>` and `devel/release.html#go<X>.<Y>.minor` on
`go<X>.<Y>.<Z><q>`, and in neither case ends the process. Nothing is asked of
`N`: the pattern does not look past `rc` or `beta`. -/
theorem versionNoPatch_release_forms (X Y Z N q : List Char)
    (hX : X ≠ [] ∧ ∀ x ∈ X, isDigit x = true) (hY : Y ≠ [] ∧ ∀ x ∈ Y, isDigit x = true)
    (hZ : Z ≠ [] ∧ ∀ x ∈ Z, isDigit x = true)
    (hq : q = [] ∨ q = "rc".toList ++ N ∨ q = "beta".toList ++ N) :
    versionNoPatch ("go".toList ++ X ++ ".".toList ++ Y ++ q)
        = .ok ("go".toList ++ X ++ ".".toList ++ Y) ∧
      versionNoPatch ("go".toList ++ X ++ ".".toList ++ Y ++ ".".toList ++ Z ++ q)
        = .ok ("devel/release.html#go".toList ++ X ++ ".".toList ++ Y ++ ".minor".toList) := by
  have hq2 : q = [] ∨ q = 'r' :: 'c' :: N ∨ q = 'b' :: 'e' :: 't' :: 'a' :: N := by
    simpa [String.toList] using hq
  obtain ⟨a0, a3, ha⟩ := find_noPatch X Y q N hX hY hq2
  obtain ⟨b0, b3, hb⟩ := find_patch X Y Z q N hX hY hZ.2 hq2
  constructor
  · simp [versionNoPatch, String.toList, ha]
  · simp [versionNoPatch, String.toList, hb]

/-- C7 at `go1.9rc1` and `go1.14.14rc1`. -/
theorem versionNoPatch_release_forms_witness :
    versionNoPatch ("go".toList ++ "1".toList ++ ".".toList ++ "9".toList ++ "rc1".toList)
        = .ok ("go".toList ++ "1".toList ++ ".".toList ++ "9".toList) ∧
      versionNoPatch ("go".toList ++ "1".toList ++ ".".toList ++ "9".toList ++ ".".toList
          ++ "14".toList ++ "rc1".toList)
        = .ok ("devel/release.html#go".toList ++ "1".toList ++ ".".toList ++ "9".toList
          ++ ".minor".toList) :=
  versionNoPatch_release_forms "1".toList "9".toList "14".toList "1".toList "rc1".toList
    (by decide) (by decide) (by decide) (by decide)

/-! ## Theorems: `golangOrgDlRoot` -/

/-- C5. The function `golangOrgDlRoot` returns a nil error exactly when the
command succeeded, its output decodes, and the decoded module path is
`github.com/zrhmn/godl`; the string returned is then the decoded `Dir`. In
every other case it returns the empty string and a non-nil error. -/
theorem golangOrgDlRoot_spec (out : List Char) (err : Option CmdError)
    (unmarshal : List Char → Except (List Char) ModInfo) :
    ((golangOrgDlRoot out err unmarshal).2 = none ↔
        (err = none ∧ ∃ mod, unmarshal out = .ok mod ∧ mod.Path = "github.com/zrhmn/godl".toList)) ∧
      (∀ mod, err = none → unmarshal out = .ok mod → mod.Path = "github.com/zrhmn/godl".toList →
        golangOrgDlRoot out err unmarshal = (mod.Dir, none)) ∧
      (¬ (err = none ∧ ∃ mod, unmarshal out = .ok mod ∧ mod.Path = "github.com/zrhmn/godl".toList) →
        (golangOrgDlRoot out err unmarshal).1 = [] ∧ (golangOrgDlRoot out err unmarshal).2 ≠ none) := by
  unfold golangOrgDlRoot
  generalize "github.com/zrhmn/godl".toList = modulePath
  cases err with
  | some e => cases e <;> simp
  | none =>
    cases hu : unmarshal out with
    | error e => simp
    | ok mod =>
      by_cases hp : mod.Path = modulePath
      · simp [hp]
      · simp [hp]

/-- C5 on a successful run in the module, and on a run in another module. -/
theorem golangOrgDlRoot_spec_witness :
    golangOrgDlRoot [] none (fun _ => .ok ⟨"github.com/zrhmn/godl".toList, "/src/godl".toList⟩)
        = ("/src/godl".toList, none) ∧
      ((golangOrgDlRoot [] none (fun _ => .ok ⟨"golang.org/dl".toList, "/src/dl".toList⟩)).1 = [] ∧
        (golangOrgDlRoot [] none (fun _ => .ok ⟨"golang.org/dl".toList, "/src/dl".toList⟩)).2
          ≠ none) :=
  ⟨(golangOrgDlRoot_spec [] none
      (fun _ => .ok ⟨"github.com/zrhmn/godl".toList, "/src/godl".toList⟩)).2.1
      ⟨"github.com/zrhmn/godl".toList, "/src/godl".toList⟩ rfl rfl rfl,
    (golangOrgDlRoot_spec [] none
      (fun _ => .ok ⟨"golang.org/dl".toList, "/src/dl".toList⟩)).2.2
      (by
        rintro ⟨-, mod, h1, h2⟩
        injection h1 with h1
        subst h1
        exact absurd h2 (by decide))⟩

/-! ## Theorems: the arguments `genv` rejects -/

set_option maxRecDepth 100000 in
/-- C2, counterexample. The argument `go1.5rc` is not in the naming grammar
(`rc` is not followed by digits), yet `genv` accepts it: the run ends without
failure and writes the stub `go1.5rc/main.go`. -/
theorem genv_accepts_go1_5rc :
    isVersionID "go1.5rc".toList = false ∧
      (genvMain (Env.allOk 2023) ("/godl".toList, none) ["go1.5rc".toList]).exit = none ∧
      (genvMain (Env.allOk 2023) ("/godl".toList, none) ["go1.5rc".toList]).written.map Prod.fst
        = ["/godl/go1.5rc/main.go".toList] := by
  decide

/-- C2, amended. An argument that is not of the form `go`, digits, `.`, digits
followed by nothing or by a tail that begins with `.`, `rc` or `beta` is
rejected: its loop body ends in `failf` (exit status 1), from the prefix check
or from `versionNoPatch`, before any file is written; a run of `genv` with
such an argument ends with exit status 1, and every file a run writes is the
stub of an argument of that form. Arguments of that form pass both checks,
whatever follows the tail. -/
theorem genv_rejects_outside_looseForm (env : Env) (root : List Char × Option RootError)
    (v : List Char) (args : List (List Char)) (h : looseForm v = false) (hv : v ∈ args) :
    (∃ f, genvVersion env root.1 v = (none, some f) ∧ f.status = 1 ∧
        (f = .noGoPrefix ∨ f = .unrecognizedVersion v)) ∧
      (∃ f, (genvMain env root args).exit = some f ∧ f.status = 1) ∧
      (∀ w ∈ (genvMain env root args).written,
        ∃ u ∈ args, looseForm u = true ∧ w.1 = env.join root.1 u) ∧
      (∀ u, looseForm u = true → ∃ buf, stubSource env.year u = .ok buf) := by
  have hne : args.isEmpty = false := by
    cases args with
    | nil => simp at hv
    | cons a as => rfl
  refine ⟨?_, ?_, ?_, fun u hu => stubSource_ok_of_looseForm env.year u hu⟩
  · unfold genvVersion
    rcases stubSource_error_of_not_looseForm env.year v h with h1 | h1 <;> rw [h1]
    · exact ⟨_, rfl, rfl, Or.inl rfl⟩
    · exact ⟨_, rfl, rfl, Or.inr rfl⟩
  · obtain ⟨dlRoot, e⟩ := root
    cases e with
    | some e => exact ⟨.dlRoot, by simp [genvMain, hne], rfl⟩
    | none =>
      obtain ⟨f, hf, hs⟩ := genvLoop_exit env dlRoot args v hv h
      exact ⟨f, by simp [genvMain, hne, hf], hs⟩
  · obtain ⟨dlRoot, e⟩ := root
    cases e with
    | some e => simp [genvMain, hne]
    | none =>
      intro w hw
      have hw2 : w ∈ (genvLoop env dlRoot args).written := by simpa [genvMain, hne] using hw
      exact genvLoop_written env dlRoot args w hw2

set_option maxRecDepth 100000 in
/-- C2, amended, at the arguments `go1.19.5` and `go1.5x`. -/
theorem genv_rejects_outside_looseForm_witness :
    (∃ f, genvVersion (Env.allOk 2023) "/godl".toList "go1.5x".toList = (none, some f) ∧
        f.status = 1 ∧ (f = .noGoPrefix ∨ f = .unrecognizedVersion "go1.5x".toList)) ∧
      (∃ f, (genvMain (Env.allOk 2023) ("/godl".toList, none)
          ["go1.19.5".toList, "go1.5x".toList]).exit = some f ∧ f.status = 1) :=
  have h := genv_rejects_outside_looseForm (Env.allOk 2023) ("/godl".toList, none) "go1.5x".toList
    ["go1.19.5".toList, "go1.5x".toList] (by decide) (by decide)
  ⟨h.1, h.2.1⟩

/-! ## Theorems: the call in the rendered stub -/

set_option maxRecDepth 100000 in
/-- C3, counterexample. The argument `go1.5rc<` has the prefix `go` and passes
`versionNoPatch`, but the text rendered for it does not contain
`version.Run("go1.5rc<")`: the escaper of `html/template` writes `&lt;`. -/
theorem stubSource_escapes_go1_5rc_lt :
    hasPrefix "go1.5rc<".toList "go".toList = true ∧
      versionNoPatch "go1.5rc<".toList = .ok "go1.5".toList ∧
      ∃ buf, stubSource 2023 "go1.5rc<".toList = .ok buf ∧
        (¬ ∃ pre post, buf = pre ++ "version.Run(\"go1.5rc<\")".toList ++ post) ∧
        ∃ pre post, buf = pre ++ "version.Run(\"go1.5rc&lt;\")".toList ++ post := by
  refine ⟨by decide, by decide, (stubSource 2023 "go1.5rc<".toList).toOption.getD [], by decide,
    ?_, ?_⟩
  · rw [← stringsContains_iff, Bool.not_eq_true]
    decide
  · rw [← stringsContains_iff]
    decide

/-- C3, amended. For every version `V` that `genv` accepts, the rendered text
contains `version.Run("E")` where `E` is `V` after HTML escaping by
`html/template`; when `V` holds none of the characters the escaper replaces
(NUL, `"`, `&`, the apostrophe, `+`, `<`, `>`), the text contains
`version.Run("V")` with `V` character for character. -/
theorem stubSource_run_call (year : Nat) (V buf : List Char) (h : stubSource year V = .ok buf) :
    (∃ pre post, buf = pre ++ "version.Run(\"".toList ++ htmlEscape V ++ "\")".toList ++ post) ∧
      ((∀ c ∈ V, htmlReplacement c = none) →
        ∃ pre post, buf = pre ++ "version.Run(\"".toList ++ V ++ "\")".toList ++ post) := by
  obtain ⟨vnp, -, rfl⟩ := stubSource_ok_inv year V buf h
  have hcall := execute_mainTmpl_call
    { Year := year
      Version := V
      VersionNoPatch := vnp
      DocHost := docHost V
      CapitalSpaceVersion := replaceFirst "go".toList "Go ".toList V }
  refine ⟨hcall, fun hV => ?_⟩
  rw [htmlEscape_id V hV] at hcall
  exact hcall

set_option maxRecDepth 100000 in
/-- C3, amended, at `go1.19.5`. -/
theorem stubSource_run_call_witness :
    ∃ buf, stubSource 2023 "go1.19.5".toList = .ok buf ∧
      ∃ pre post, buf = pre ++ "version.Run(\"".toList ++ "go1.19.5".toList ++ "\")".toList ++ post :=
  ⟨(stubSource 2023 "go1.19.5".toList).toOption.getD [], by decide,
    (stubSource_run_call 2023 "go1.19.5".toList _ (by decide)).2 (by decide)⟩

/-! ## Theorems: the checked-in stubs -/

set_option maxRecDepth 100000 in
/-- C1, the code at the failing stub. The stub `go1.19.5/main.go` imports
`golang.org/dl/internal/version`, not the engine
`github.com/zrhmn/godl/internal/version` that the other seven stubs import and
that `mainTmpl` emits (also when it renders `go1.19.5`). In all eight stubs
the body of `main` is the single call `version.Run("<V>")` with the name of
the stub's directory. -/
theorem stub_go1_19_5_imports_other_engine :
    stub_go1_19_5 ∈ stubs ∧
      importPaths stub_go1_19_5 = ["golang.org/dl/internal/version".toList] ∧
      importPaths stub_go1_19_5 ≠ [enginePath] ∧
      (stubSource 2023 "go1.19.5".toList).toOption.map (fun buf => importPathsOf (linesOf buf))
        = some [enginePath] ∧
      (stubs.filter (fun st => st.dir != "go1.19.5")).map importPaths
        = List.replicate 7 [enginePath] ∧
      stubs.map mainBody
        = stubs.map (fun st => ["\tversion.Run(\"".toList ++ st.dir.toList ++ "\")".toList]) := by
  refine ⟨by simp [stubs], by decide, by decide, by decide, by decide, by decide⟩

set_option maxRecDepth 100000 in
/-- C8, counterexample. The release-notes line of the stub `go1.17.5/main.go`
names `go.dev` and ends in a period; the string formula, which is the line
`mainTmpl` renders, gives a `golang.org` line. -/
theorem stub_go1_17_5_notes_line_differs :
    stub_go1_17_5 ∈ stubs ∧
      releaseNotesLine stub_go1_17_5
        = some "// See the release notes at https://go.dev/doc/devel/release#go1.17.minor.".toList ∧
      notesLine stub_go1_17_5.dir.toList = .ok
        "// See the release notes at https://golang.org/doc/devel/release.html#go1.17.minor".toList ∧
      (releaseNotesLine stub_go1_17_5).map Except.ok ≠ some (notesLine stub_go1_17_5.dir.toList) := by
  refine ⟨by simp [stubs], by decide, by decide, by decide⟩


theorem stubSource_notes_line (year : Nat) (V vnp : List Char) (hl : looseForm V = true)
    (hv : versionNoPatch V = .ok vnp) (he1 : htmlEscape (docHost V) = docHost V)
    (he2 : htmlEscape vnp = vnp) :
    ∃ pre post, stubSource year V = .ok (pre ++ "\n".toList ++
      ("// See the release notes at https://".toList ++ docHost V ++ "/doc/".toList ++ vnp)
      ++ "\n".toList ++ post) := by
  obtain ⟨buf, hb⟩ := stubSource_ok_of_looseForm year V hl
  obtain ⟨vnp1, hv1, rfl⟩ := stubSource_ok_inv year V buf hb
  obtain rfl : vnp = vnp1 := by
    rw [hv] at hv1
    injection hv1
  obtain ⟨pre, post, hn⟩ := execute_mainTmpl_notes
    { Year := year
      Version := V
      VersionNoPatch := vnp
      DocHost := docHost V
      CapitalSpaceVersion := replaceFirst "go".toList "Go ".toList V }
  simp only [he1, he2] at hn
  exact ⟨pre, post, by rw [hb, hn]⟩

theorem stub_notes_line_rendered (year : Nat) (st : Stub)
    (h1 : (releaseNotesLine st).map Except.ok = some (notesLine st.dir.toList))
    (hl : looseForm st.dir.toList = true)
    (he1 : htmlEscape (docHost st.dir.toList) = docHost st.dir.toList)
    (he2 : htmlEscape ((versionNoPatch st.dir.toList).toOption.getD [])
      = (versionNoPatch st.dir.toList).toOption.getD []) :
    ∃ line, releaseNotesLine st = some line ∧ notesLine st.dir.toList = .ok line ∧
      ∃ pre post, stubSource year st.dir.toList
        = .ok (pre ++ "\n".toList ++ line ++ "\n".toList ++ post) := by
  obtain ⟨vnp, hv⟩ := (versionNoPatch_ok_iff st.dir.toList).2 hl
  rw [hv] at he2
  have he3 : htmlEscape vnp = vnp := he2
  have hn : notesLine st.dir.toList = .ok ("// See the release notes at https://".toList
      ++ docHost st.dir.toList ++ "/doc/".toList ++ vnp) := by
    simp only [notesLine, hv]
  cases hr : releaseNotesLine st with
  | none => rw [hr] at h1; cases h1
  | some line =>
    rw [hr, hn] at h1
    obtain rfl : line = "// See the release notes at https://".toList
        ++ docHost st.dir.toList ++ "/doc/".toList ++ vnp := by
      simpa using h1
    exact ⟨_, rfl, hn, stubSource_notes_line year _ vnp hl hv he1 he3⟩

set_option maxRecDepth 100000 in
/-- C8, amended. For the stubs `go1.8.4`, `go1.9rc1`, `go1.14.14`, `go1.15.5`
and `go1.17rc2` the release-notes line is exactly
`"// See the release notes at https://" + docHost(V) + "/doc/" + versionNoPatch(V)`,
and it is a line of the text `mainTmpl` renders for `V` in any year. The
stubs `go1.17.5`, `go1.18beta1` and `go1.19.5` carry other lines: `go.dev`
with the anchor `release#go<X>.<Y>.minor` and a final period for the two patch
releases, the `tip.golang.org` line with a final period for the beta. -/
theorem stubs_notes_lines (year : Nat) :
    (∀ st ∈ stubs, st.dir ∈ ["go1.8.4", "go1.9rc1", "go1.14.14", "go1.15.5", "go1.17rc2"] →
        ∃ line, releaseNotesLine st = some line ∧ notesLine st.dir.toList = .ok line ∧
          ∃ pre post, stubSource year st.dir.toList
            = .ok (pre ++ "\n".toList ++ line ++ "\n".toList ++ post)) ∧
      releaseNotesLine stub_go1_17_5 = some
        "// See the release notes at https://go.dev/doc/devel/release#go1.17.minor.".toList ∧
      releaseNotesLine stub_go1_18beta1 = some
        "// See the release notes at https://tip.golang.org/doc/go1.18.".toList ∧
      releaseNotesLine stub_go1_19_5 = some
        "// See the release notes at https://go.dev/doc/devel/release#go1.19.minor.".toList := by
  refine ⟨?_, by decide, by decide, by decide⟩
  intro st hst hdir
  simp only [stubs, List.mem_cons, List.mem_singleton, List.not_mem_nil, or_false] at hst
  rcases hst with rfl | rfl | rfl | rfl | rfl | rfl | rfl | rfl
  · exact stub_notes_line_rendered year _ (by decide) (by decide) (by decide) (by decide)
  · exact stub_notes_line_rendered year _ (by decide) (by decide) (by decide) (by decide)
  · exact stub_notes_line_rendered year _ (by decide) (by decide) (by decide) (by decide)
  · exact stub_notes_line_rendered year _ (by decide) (by decide) (by decide) (by decide)
  · exact absurd hdir (by decide)
  · exact stub_notes_line_rendered year _ (by decide) (by decide) (by decide) (by decide)
  · exact absurd hdir (by decide)
  · exact absurd hdir (by decide)

set_option maxRecDepth 100000 in
/-- C8, amended, at the stub `go1.9rc1` and the year 2018. -/
theorem stubs_notes_lines_witness :
    ∃ line, releaseNotesLine stub_go1_9rc1 = some line ∧
      notesLine stub_go1_9rc1.dir.toList = .ok line ∧
      ∃ pre post, stubSource 2018 stub_go1_9rc1.dir.toList
        = .ok (pre ++ "\n".toList ++ line ++ "\n".toList ++ post) :=
  (stubs_notes_lines 2018).1 stub_go1_9rc1 (by simp [stubs]) (by decide)


namespace Core

/-! ## Theorems: the cache store -/

theorem allVerified_empty (P : Platform) : AllVerified P Store.empty := by
  intro v t h
  simp [Store.empty] at h

theorem allVerified_set_none (P : Platform) (st : Store) (v : String)
    (h : AllVerified P st) : AllVerified P (st.set v none) := by
  intro u t hu
  simp only [Store.set] at hu
  by_cases huv : u = v
  · rw [if_pos huv] at hu
    cases hu
  · rw [if_neg huv] at hu
    exact h u t hu

theorem allVerified_commit (P : Platform) (st : Store) (v : String) (scratch : List Nat)
    (sentinelOk : Bool) (h : AllVerified P st)
    (hs : ∃ d, P.expected v = some d ∧ Verify P scratch d = true) :
    AllVerified P (Commit st v scratch sentinelOk).1 := by
  unfold Commit
  cases hv : st v with
  | some t => exact h
  | none =>
    intro u t hu
    simp only [Store.set] at hu
    by_cases huv : u = v
    · rw [if_pos huv] at hu
      obtain ⟨d, hd, hver⟩ := hs
      injection hu with hu
      subst hu
      subst huv
      exact ⟨d, hd, by simpa [Verify] using hver⟩
    · rw [if_neg huv] at hu
      exact h u t hu

theorem allVerified_acquire (P : Platform) (st : Store) (v : String) (fetched : Option (List Nat))
    (extractOk sentinelOk : Bool) (h : AllVerified P st) :
    AllVerified P (Acquire P st v fetched extractOk sentinelOk).1 := by
  unfold Acquire
  by_cases hr : Lookup st v = .Ready
  · rw [if_pos hr]
    exact h
  · rw [if_neg hr]
    cases hd : P.expected v with
    | none => exact h
    | some d =>
      cases fetched with
      | none => exact h
      | some artifact =>
        dsimp only
        by_cases hver : (!Verify P artifact d) = true
        · rw [if_pos hver]
          exact h
        · rw [if_neg hver]
          by_cases hex : (!extractOk) = true
          · rw [if_pos hex]
            exact h
          · rw [if_neg hex]
            exact allVerified_commit P st v artifact sentinelOk h
              ⟨d, hd, by simpa using hver⟩

theorem allVerified_step (P : Platform) (st : Store) (op : Op) (h : AllVerified P st)
    (hc : op.contract P) : AllVerified P (step P st op) := by
  cases op with
  | acquire v fetched extractOk sentinelOk => exact allVerified_acquire P st v _ _ _ h
  | commit v scratch sentinelOk => exact allVerified_commit P st v scratch sentinelOk h hc
  | purge v =>
    simp only [step, Purge]
    by_cases hl : Lookup st v = .Corrupt
    · rw [if_pos hl]
      exact allVerified_set_none P st v h
    · rw [if_neg hl]
      exact h

theorem allVerified_foldl (P : Platform) (ops : List Op) (st : Store) (h : AllVerified P st)
    (hc : ∀ op ∈ ops, op.contract P) : AllVerified P (ops.foldl (step P) st) := by
  induction ops generalizing st with
  | nil => exact h
  | cons op ops ih =>
    exact ih _ (allVerified_step P st op h (hc op (by simp)))
      (fun o ho => hc o (by simp [ho]))

theorem lookup_ready (st : Store) (v : String) (h : Lookup st v = .Ready) :
    ∃ t, st v = some t ∧ t.sentinel = true := by
  unfold Lookup at h
  cases hv : st v with
  | none => rw [hv] at h; cases h
  | some t =>
    rw [hv] at h
    dsimp only at h
    by_cases hs : t.sentinel = true
    · exact ⟨t, rfl, hs⟩
    · rw [if_neg hs] at h
      cases h

theorem lookup_not_ready (st : Store) (v : String) (h : Lookup st v ≠ .Ready) :
    Lookup st v = .Absent ∨ Lookup st v = .Corrupt := by
  unfold Lookup at h ⊢
  cases hv : st v with
  | none => exact Or.inl rfl
  | some t =>
    rw [hv] at h
    dsimp only at h ⊢
    by_cases hs : t.sentinel = true
    · rw [if_pos hs] at h
      exact absurd rfl h
    · rw [if_neg hs]
      exact Or.inr rfl

/-- C4, counterexample. The sequence of the single operation `Commit` of a
scratch directory extracted from the archive `[9]`, whose digest `[1, 9]` is
not the expected digest `[3, 6]` of `go1.19.5`, leaves `Lookup` reporting
Ready for `go1.19.5` although the installed contents are not digest-verified:
`Commit` renames and writes the sentinel, it does not verify. -/
theorem commit_unverified_is_ready :
    Platform.sample.expected "go1.19.5" = some [3, 6] ∧
      Platform.sample.digest [9] = [1, 9] ∧
      Lookup (run Platform.sample [.commit "go1.19.5" [9] true]) "go1.19.5" = .Ready ∧
      ¬ DigestVerified Platform.sample (run Platform.sample [.commit "go1.19.5" [9] true])
        "go1.19.5" := by
  refine ⟨by decide, by decide, by decide, ?_⟩
  rintro ⟨t, d, ht, hd, hdig⟩
  have hrun : run Platform.sample [.commit "go1.19.5" [9] true] "go1.19.5"
      = some ⟨[9], true⟩ := by decide
  have hexp : Platform.sample.expected "go1.19.5" = some [3, 6] := by decide
  rw [hrun] at ht
  injection ht with ht
  subst ht
  rw [hexp] at hd
  injection hd with hd
  subst hd
  exact absurd hdig (by decide)

/-- C4, amended. In the store reached from the empty cache by any sequence of
`Acquire`, `Commit` and `Purge` operations in which each `Commit` is given a
scratch directory that meets its contract (extracted from a digest-verified
archive), `Lookup` reports Ready for a version only if the installed contents
are digest-verified. An `Acquire` that reaches the comparison with a fetched
artifact whose digest differs from the expected one fails with
`ChecksumMismatch`, leaves the store as it was, and `Lookup` reports Absent or
Corrupt afterwards, not Ready. -/
theorem ready_only_if_verified (P : Platform) (ops : List Op)
    (hc : ∀ op ∈ ops, op.contract P) (v : String) :
    (Lookup (run P ops) v = .Ready → DigestVerified P (run P ops) v) ∧
      (∀ (artifact d : List Nat) (extractOk sentinelOk : Bool),
        Lookup (run P ops) v ≠ .Ready → P.expected v = some d → P.digest artifact ≠ d →
        Acquire P (run P ops) v (some artifact) extractOk sentinelOk
            = (run P ops, .error .ChecksumMismatch) ∧
          (Lookup (Acquire P (run P ops) v (some artifact) extractOk sentinelOk).1 v = .Absent ∨
            Lookup (Acquire P (run P ops) v (some artifact) extractOk sentinelOk).1 v
              = .Corrupt) ∧
          Lookup (Acquire P (run P ops) v (some artifact) extractOk sentinelOk).1 v ≠ .Ready) := by
  have hall : AllVerified P (run P ops) := allVerified_foldl P ops _ (allVerified_empty P) hc
  constructor
  · intro hr
    obtain ⟨t, ht, -⟩ := lookup_ready _ v hr
    obtain ⟨d, hd, hdig⟩ := hall v t ht
    exact ⟨t, d, ht, hd, hdig⟩
  · intro artifact d extractOk sentinelOk hnr hd hdig
    have hacq : Acquire P (run P ops) v (some artifact) extractOk sentinelOk
        = (run P ops, .error .ChecksumMismatch) := by
      unfold Acquire
      rw [if_neg hnr, hd]
      dsimp only
      rw [if_pos (by simpa [Verify] using hdig)]
    rw [hacq]
    exact ⟨rfl, lookup_not_ready _ v hnr, hnr⟩

/-- C4, amended, on a sample run that ends with `go1.19.5` Ready, and on the empty
cache for an artifact with a wrong digest. -/
theorem ready_only_if_verified_witness :
    (∀ op ∈ sampleOps, op.contract Platform.sample) ∧
      Lookup (run Platform.sample sampleOps) "go1.19.5" = .Ready ∧
      DigestVerified Platform.sample (run Platform.sample sampleOps) "go1.19.5" ∧
      Acquire Platform.sample (run Platform.sample []) "go1.19.5" (some [1, 2, 4]) true true
        = (run Platform.sample [], .error .ChecksumMismatch) :=
  have hc : ∀ op ∈ sampleOps, op.contract Platform.sample := by
    intro op hop
    simp only [sampleOps, List.mem_cons, List.mem_singleton, List.not_mem_nil, or_false] at hop
    rcases hop with rfl | rfl | rfl | rfl
    · trivial
    · trivial
    · exact ⟨[3, 6], by decide, by decide⟩
    · trivial
  have hr : Lookup (run Platform.sample sampleOps) "go1.19.5" = .Ready := by decide
  ⟨hc, hr, (ready_only_if_verified Platform.sample sampleOps hc "go1.19.5").1 hr,
    ((ready_only_if_verified Platform.sample [] (by simp) "go1.19.5").2 [1, 2, 4] [3, 6] true true
      (by decide) (by decide) (by decide)).1⟩

end Core


end Godl
